import Mathlib

/-!
Shallow embedding of `TTSDKJSONCodec.c` (the streaming JSON codec used by the
TikTok Business iOS SDK crash recorder) together with proofs about the claims
of the natural-language specification.

Byte sequences are modelled as `List Char`, each `Char` standing for one byte
(its code point is the byte value).  The encoder's caller-supplied sink is
modelled as a function from the invocation index to the status it returns; the
bytes handed to the sink are recorded in order.  The decoder's callbacks are
modelled as a function from the event history and the current event to the
status the callback returns, and the events are recorded in order.
-/

/-- Modelled from the spec: the error-code enum lives in `TTSDKJSONCodec.h`,
which is not among the provided sources.  The spec lists the codes as
"OK, InvalidCharacter, DataTooLong, CannotAddData, Incomplete, InvalidData".
`OK` must be 0 (the code returns `result || closeResult` as a status and
treats 0 as success); the remaining codes are modelled as 1..5 in the spec's
order.  No resolution below depends on the exact nonzero values, only on
their being nonzero and pairwise distinct. -/
def TTSDKJSON_OK : Int := 0

/-- Modelled from the spec (see `TTSDKJSON_OK`): syntactic or encoding
violation. -/
def TTSDKJSON_ERROR_INVALID_CHARACTER : Int := 1

/-- Modelled from the spec (see `TTSDKJSON_OK`): output or scratch buffer
overflow. -/
def TTSDKJSON_ERROR_DATA_TOO_LONG : Int := 2

/-- Modelled from the spec (see `TTSDKJSON_OK`): reserved for sinks. -/
def TTSDKJSON_ERROR_CANNOT_ADD_DATA : Int := 3

/-- Modelled from the spec (see `TTSDKJSON_OK`): input exhausted mid-token. -/
def TTSDKJSON_ERROR_INCOMPLETE : Int := 4

/-- Modelled from the spec (see `TTSDKJSON_OK`): semantic violation such as a
null key inside an object. -/
def TTSDKJSON_ERROR_INVALID_DATA : Int := 5

/-- Modelled from the spec: `AUTO` length ("the source uses -1"); the constant
itself is declared in the missing header. -/
def TTSDKJSON_SIZE_AUTOMATIC : Int := -1

/-- C `isspace` on the default locale: space, tab, newline, vertical tab,
form feed, carriage return. -/
def isSpaceC (c : Char) : Bool :=
  c == ' ' || c == '\t' || c == '\n' || c == '\x0b' || c == '\x0c' || c == '\r'

/-- C `isdigit`. -/
def isDigitC (c : Char) : Bool :=
  '0' ≤ c && c ≤ '9'

/-- The semantics of C's `result || closeResult` on `int` status values:
the logical OR collapses any nonzero operand to the int 1. -/
def cBoolOr (a b : Int) : Int :=
  if a ≠ 0 ∨ b ≠ 0 then 1 else 0

-- ===========================================================================
-- Encoder
-- ===========================================================================

/-- The encoder context (`TTSDKJSONEncodeContext`).  The `addJSONData`
function pointer plus its opaque `userData` are modelled by `sink`, giving
the status the caller's callback returns for the n-th invocation. -/
structure EncCtx where
  sink : Nat → Int
  prettyPrint : Bool
  containerLevel : Int
  isObject : Int → Bool
  containerFirstEntry : Bool

/-- An encoder session state: the context plus the record of every byte chunk
handed to the sink callback, in order. -/
structure EncState where
  ctx : EncCtx
  calls : List (List Char)

/-- The `addJSONData` macro: invoke the caller's sink with a chunk of bytes
and propagate its status.  The chunk is recorded whether or not the sink
reports success (the callback does run either way). -/
def addJSONData (st : EncState) (data : List Char) : Int × EncState :=
  (st.ctx.sink st.calls.length, { st with calls := st.calls ++ [data] })

/-- The escaping transformation performed by `appendEscapedString`'s two
loops: short escapes for backslash, quote, \b, \f, \n, \r, \t; any other
byte below 0x20 is an error (`none`); everything else passes through. -/
def escapeChunk : List Char → Option (List Char)
  | [] => some []
  | c :: rest =>
    if c = '\\' ∨ c = '"' then (escapeChunk rest).map (fun t => '\\' :: c :: t)
    else if c = '\x08' then (escapeChunk rest).map (fun t => '\\' :: 'b' :: t)
    else if c = '\x0c' then (escapeChunk rest).map (fun t => '\\' :: 'f' :: t)
    else if c = '\n' then (escapeChunk rest).map (fun t => '\\' :: 'n' :: t)
    else if c = '\r' then (escapeChunk rest).map (fun t => '\\' :: 'r' :: t)
    else if c = '\t' then (escapeChunk rest).map (fun t => '\\' :: 't' :: t)
    else if c.toNat < 0x20 then none
    else (escapeChunk rest).map (fun t => c :: t)

/-- `appendEscapedString`: escape one work-buffer chunk and send it through
the sink in a single `addJSONData` call.  An invalid control byte aborts
before anything is sent. -/
def appendEscapedString (st : EncState) (s : List Char) : Int × EncState :=
  match escapeChunk s with
  | none => (TTSDKJSON_ERROR_INVALID_CHARACTER, st)
  | some bytes => addJSONData st bytes

/-- The chunking loop of `addEscapedString`.  Each iteration handles at most
`TTSDKJSONCODEC_WorkBufferSize / 2 = 256` bytes and consumes at least one, so
a fuel of the string's length (supplied by `addEscapedString`) is always
sufficient; the fuel-exhausted arm is unreachable from `addEscapedString`. -/
def addEscapedStringLoop (fuel : Nat) (st : EncState) (s : List Char) : Int × EncState :=
  match fuel, s with
  | _, [] => (TTSDKJSON_OK, st)
  | 0, _ => (TTSDKJSON_OK, st)
  | fuel + 1, s =>
    let r := appendEscapedString st (s.take 256)
    if r.1 ≠ TTSDKJSON_OK then r
    else addEscapedStringLoop fuel r.2 (s.drop 256)

/-- `addEscapedString`: feed the string through `appendEscapedString` in
chunks of at most 256 bytes, stopping at the first non-OK status. -/
def addEscapedString (st : EncState) (s : List Char) : Int × EncState :=
  addEscapedStringLoop s.length st s

/-- `addQuotedEscapedString`: emit the opening quote, the escaped body, then
always attempt the closing quote; the returned status is the C expression
`result || closeResult`. -/
def addQuotedEscapedString (st : EncState) (s : List Char) : Int × EncState :=
  let r1 := addJSONData st ['"']
  if r1.1 ≠ TTSDKJSON_OK then r1
  else
    let r2 := addEscapedString r1.2 s
    let r3 := addJSONData r2.2 ['"']
    (cBoolOr r2.1 r3.1, r3.2)

/-- Decimal digits of a natural number, mirroring `%llu` output. -/
def natDecimal (n : Nat) : List Char :=
  Nat.toDigits 10 n

/-- Decimal text of a signed 64-bit integer, mirroring `%lld` output. -/
def intDecimal (v : Int) : List Char :=
  if v < 0 then '-' :: natDecimal (-v).toNat else natDecimal v.toNat

/-- `checkWriteResult` on a model where `snprintf` reports the length of the
full text it wanted to write (never negative in the model): truncation, i.e.
`written >= buffSize`, yields `DataTooLong`. -/
def checkWriteResult (written : Nat) (buffSize : Nat) : Int :=
  if written ≥ buffSize then TTSDKJSON_ERROR_DATA_TOO_LONG else TTSDKJSON_OK

/-- A double value as far as `formatDouble` observes it.  The finite branch
of `formatDouble` (C's `%g` formatting with `FLT_DIG`/`DBL_DIG`, the decimal
point fixup and zero stripping) is not modelled; a finite value carries the
text that branch would produce.  The claims below concern only the non-finite
branches, which are modelled exactly. -/
inductive CDouble
  | nan
  | inf (positive : Bool)
  | finite (text : List Char)

/-- `formatDouble`: `NaN` formats as the literal `null`; infinities format as
`1e999` / `-1e999`; finite values take the (unmodelled) `%g` path.  Returns
the status from `checkWriteResult` plus the produced text. -/
def formatDouble (buffSize : Nat) (value : CDouble) : Int × List Char :=
  match value with
  | .nan =>
    let text := "null".toList
    (checkWriteResult text.length buffSize, text)
  | .inf positive =>
    let text := if positive then "1e999".toList else "-1e999".toList
    (checkWriteResult text.length buffSize, text)
  | .finite text =>
    (checkWriteResult text.length buffSize, text)

/-- `formatInt64` (`%PRId64` into a 21-byte buffer). -/
def formatInt64 (buffSize : Nat) (v : Int) : Int × List Char :=
  let text := intDecimal v
  (checkWriteResult text.length buffSize, text)

/-- `formatUint64` (`%PRIu64` into a 21-byte buffer). -/
def formatUint64 (buffSize : Nat) (v : Nat) : Int × List Char :=
  let text := natDecimal v
  (checkWriteResult text.length buffSize, text)

/-- The pretty-print indentation loop: emit `"    "` once per open level,
stopping at the first non-OK status. -/
def emitIndent : Nat → EncState → Int × EncState
  | 0, st => (TTSDKJSON_OK, st)
  | n + 1, st =>
    let r := addJSONData st "    ".toList
    if r.1 ≠ TTSDKJSON_OK then r else emitIndent n r.2

/-- First phase of `ttsdkjson_beginElement`: decide whether a comma is
warranted (clear `containerFirstEntry` or emit `,`). -/
def beginElementComma (st : EncState) : Int × EncState :=
  if st.ctx.containerFirstEntry then
    (TTSDKJSON_OK, { st with ctx := { st.ctx with containerFirstEntry := false } })
  else addJSONData st [',']

/-- Second phase of `ttsdkjson_beginElement`: pretty-print newline plus four
spaces per open level. -/
def beginElementIndent (st : EncState) : Int × EncState :=
  if st.ctx.prettyPrint ∧ st.ctx.containerLevel > 0 then
    let rn := addJSONData st ['\n']
    if rn.1 ≠ TTSDKJSON_OK then rn else emitIndent st.ctx.containerLevel.toNat rn.2
  else (TTSDKJSON_OK, st)

/-- Third phase of `ttsdkjson_beginElement`: inside an object a non-null name
is required and emitted as a quoted-escaped string followed by `: ` (pretty)
or `:` (compact). -/
def beginElementName (st : EncState) (name : Option (List Char)) : Int × EncState :=
  if st.ctx.isObject st.ctx.containerLevel then
    match name with
    | none => (TTSDKJSON_ERROR_INVALID_DATA, st)
    | some n =>
      let rq := addQuotedEscapedString st n
      if rq.1 ≠ TTSDKJSON_OK then rq
      else if rq.2.ctx.prettyPrint then addJSONData rq.2 (':' :: ' ' :: [])
      else addJSONData rq.2 [':']
  else (TTSDKJSON_OK, st)

/-- `ttsdkjson_beginElement`: comma placement, pretty-print indentation, and
the quoted name plus colon when the current container is an object, each
phase short-circuiting on a non-OK status. -/
def ttsdkjson_beginElement (st : EncState) (name : Option (List Char)) : Int × EncState :=
  let step1 := beginElementComma st
  if step1.1 ≠ TTSDKJSON_OK then step1
  else
    let step2 := beginElementIndent step1.2
    if step2.1 ≠ TTSDKJSON_OK then step2
    else beginElementName step2.2 name

/-- `ttsdkjson_addRawJSONData`. -/
def ttsdkjson_addRawJSONData (st : EncState) (data : List Char) : Int × EncState :=
  addJSONData st data

/-- `ttsdkjson_addBooleanElement`. -/
def ttsdkjson_addBooleanElement (st : EncState) (name : Option (List Char)) (value : Bool) :
    Int × EncState :=
  let r := ttsdkjson_beginElement st name
  if r.1 ≠ TTSDKJSON_OK then r
  else if value then addJSONData r.2 "true".toList
  else addJSONData r.2 "false".toList

/-- `addFormattedNumber`. -/
def addFormattedNumber (st : EncState) (name : Option (List Char)) (text : List Char) :
    Int × EncState :=
  let r := ttsdkjson_beginElement st name
  if r.1 ≠ TTSDKJSON_OK then r else addJSONData r.2 text

/-- `ttsdkjson_addFloatingPointElement` (64-byte format buffer). -/
def ttsdkjson_addFloatingPointElement (st : EncState) (name : Option (List Char))
    (value : CDouble) : Int × EncState :=
  let f := formatDouble 64 value
  if f.1 ≠ TTSDKJSON_OK then (f.1, st) else addFormattedNumber st name f.2

/-- `ttsdkjson_addIntegerElement` (21-byte format buffer). -/
def ttsdkjson_addIntegerElement (st : EncState) (name : Option (List Char)) (value : Int) :
    Int × EncState :=
  let f := formatInt64 21 value
  if f.1 ≠ TTSDKJSON_OK then (f.1, st) else addFormattedNumber st name f.2

/-- `ttsdkjson_addUIntegerElement` (21-byte format buffer). -/
def ttsdkjson_addUIntegerElement (st : EncState) (name : Option (List Char)) (value : Nat) :
    Int × EncState :=
  let f := formatUint64 21 value
  if f.1 ≠ TTSDKJSON_OK then (f.1, st) else addFormattedNumber st name f.2

/-- `ttsdkjson_addNullElement`. -/
def ttsdkjson_addNullElement (st : EncState) (name : Option (List Char)) : Int × EncState :=
  let r := ttsdkjson_beginElement st name
  if r.1 ≠ TTSDKJSON_OK then r else addJSONData r.2 "null".toList

/-- `ttsdkjson_addStringElement`.  A null `value` is reinterpreted as a null
element.  The C function receives a raw pointer plus a length (with -1
meaning `strlen`); the model carries the pointed-to bytes and applies the
length by truncation. -/
def ttsdkjson_addStringElement (st : EncState) (name : Option (List Char))
    (value : Option (List Char)) (length : Int) : Int × EncState :=
  match value with
  | none => ttsdkjson_addNullElement st name
  | some v =>
    let r := ttsdkjson_beginElement st name
    if r.1 ≠ TTSDKJSON_OK then r
    else
      let len := if length = TTSDKJSON_SIZE_AUTOMATIC then v.length else length.toNat
      addQuotedEscapedString r.2 (v.take len)

/-- `ttsdkjson_beginStringElement`. -/
def ttsdkjson_beginStringElement (st : EncState) (name : Option (List Char)) : Int × EncState :=
  let r := ttsdkjson_beginElement st name
  if r.1 ≠ TTSDKJSON_OK then r else addJSONData r.2 ['"']

/-- `ttsdkjson_appendStringElement`. -/
def ttsdkjson_appendStringElement (st : EncState) (value : List Char) : Int × EncState :=
  addEscapedString st value

/-- `ttsdkjson_endStringElement`. -/
def ttsdkjson_endStringElement (st : EncState) : Int × EncState :=
  addJSONData st ['"']

/-- The `g_hexNybbles` table. -/
def hexNybble (n : Nat) : Char :=
  "0123456789ABCDEF".toList.getD n '0'

/-- `ttsdkjson_appendDataElement`: two uppercase hex nybbles per byte, each
pair sent through its own `addJSONData` call, stopping at the first error. -/
def ttsdkjson_appendDataElement (st : EncState) (value : List Char) : Int × EncState :=
  match value with
  | [] => (TTSDKJSON_OK, st)
  | b :: rest =>
    let r := addJSONData st [hexNybble ((b.toNat >>> 4) % 16), hexNybble (b.toNat % 16)]
    if r.1 ≠ TTSDKJSON_OK then r else ttsdkjson_appendDataElement r.2 rest

/-- `ttsdkjson_beginDataElement`. -/
def ttsdkjson_beginDataElement (st : EncState) (name : Option (List Char)) : Int × EncState :=
  ttsdkjson_beginStringElement st name

/-- `ttsdkjson_endDataElement`. -/
def ttsdkjson_endDataElement (st : EncState) : Int × EncState :=
  ttsdkjson_endStringElement st

/-- `ttsdkjson_addDataElement`. -/
def ttsdkjson_addDataElement (st : EncState) (name : Option (List Char)) (value : List Char) :
    Int × EncState :=
  let r := ttsdkjson_beginDataElement st name
  if r.1 ≠ TTSDKJSON_OK then r
  else
    let r2 := ttsdkjson_appendDataElement r.2 value
    if r2.1 ≠ TTSDKJSON_OK then r2 else ttsdkjson_endDataElement r2.2

/-- `ttsdkjson_beginArray`: run `beginElement` (the `containerLevel >= 0`
guard always holds in a live session), push a level marked as array, set
`containerFirstEntry`, emit `[`. -/
def ttsdkjson_beginArray (st : EncState) (name : Option (List Char)) : Int × EncState :=
  let pre : Int × EncState :=
    if st.ctx.containerLevel ≥ 0 then ttsdkjson_beginElement st name
    else (TTSDKJSON_OK, st)
  if pre.1 ≠ TTSDKJSON_OK then pre
  else
    let st1 := pre.2
    let lvl := st1.ctx.containerLevel + 1
    let st2 : EncState :=
      { st1 with
        ctx := { st1.ctx with
                  containerLevel := lvl
                  isObject := fun i => if i = lvl then false else st1.ctx.isObject i
                  containerFirstEntry := true } }
    addJSONData st2 ['[']

/-- `ttsdkjson_beginObject`: like `ttsdkjson_beginArray` with the new level
marked as object and `{` emitted. -/
def ttsdkjson_beginObject (st : EncState) (name : Option (List Char)) : Int × EncState :=
  let pre : Int × EncState :=
    if st.ctx.containerLevel ≥ 0 then ttsdkjson_beginElement st name
    else (TTSDKJSON_OK, st)
  if pre.1 ≠ TTSDKJSON_OK then pre
  else
    let st1 := pre.2
    let lvl := st1.ctx.containerLevel + 1
    let st2 : EncState :=
      { st1 with
        ctx := { st1.ctx with
                  containerLevel := lvl
                  isObject := fun i => if i = lvl then true else st1.ctx.isObject i
                  containerFirstEntry := true } }
    addJSONData st2 ['{']

/-- The pretty-printing block of `ttsdkjson_endContainer`: newline and
indent, emitted only when the container was non-empty. -/
def endContainerIndent (st : EncState) : Int × EncState :=
  if st.ctx.prettyPrint ∧ ¬st.ctx.containerFirstEntry then
    let rn := addJSONData st ['\n']
    if rn.1 ≠ TTSDKJSON_OK then rn else emitIndent st.ctx.containerLevel.toNat rn.2
  else (TTSDKJSON_OK, st)

/-- `ttsdkjson_endContainer`: no-op at level <= 0; otherwise capture the
container kind, decrement the level, run the pretty-printing block, clear
`containerFirstEntry`, and emit the closing delimiter. -/
def ttsdkjson_endContainer (st : EncState) : Int × EncState :=
  if st.ctx.containerLevel ≤ 0 then (TTSDKJSON_OK, st)
  else
    let isObj := st.ctx.isObject st.ctx.containerLevel
    let st1 : EncState := { st with ctx := { st.ctx with containerLevel := st.ctx.containerLevel - 1 } }
    let step := endContainerIndent st1
    if step.1 ≠ TTSDKJSON_OK then step
    else
      let st2 : EncState := { step.2 with ctx := { step.2.ctx with containerFirstEntry := false } }
      addJSONData st2 (if isObj then ['}'] else [']'])

/-- `ttsdkjson_beginEncode`: zero the context, then install the sink, the
pretty-print flag, and `containerFirstEntry = true`. -/
def ttsdkjson_beginEncode (prettyPrint : Bool) (sink : Nat → Int) : EncState :=
  { ctx := { sink := sink
             prettyPrint := prettyPrint
             containerLevel := 0
             isObject := fun _ => false
             containerFirstEntry := true }
    calls := [] }

/-- The `while (containerLevel > 0)` loop of `ttsdkjson_endEncode`.  Each
iteration with a positive level decrements it by one, so a fuel of
`containerLevel.toNat` is exact; the fuel-exhausted case is unreachable from
`ttsdkjson_endEncode`. -/
def endEncodeLoop : Nat → EncState → Int × EncState
  | 0, st => (TTSDKJSON_OK, st)
  | f + 1, st =>
    if st.ctx.containerLevel > 0 then
      let r := ttsdkjson_endContainer st
      if r.1 ≠ TTSDKJSON_OK then r else endEncodeLoop f r.2
    else (TTSDKJSON_OK, st)

/-- `ttsdkjson_endEncode`: auto-close all still-open containers. -/
def ttsdkjson_endEncode (st : EncState) : Int × EncState :=
  endEncodeLoop st.ctx.containerLevel.toNat st

/-- One operation of the encoder surface, for stating whole-session
invariants. -/
inductive EncOp
  | beginArray (name : Option (List Char))
  | beginObject (name : Option (List Char))
  | endContainer
  | addBoolean (name : Option (List Char)) (value : Bool)
  | addInteger (name : Option (List Char)) (value : Int)
  | addUInteger (name : Option (List Char)) (value : Nat)
  | addFloating (name : Option (List Char)) (value : CDouble)
  | addNull (name : Option (List Char))
  | addString (name : Option (List Char)) (value : Option (List Char)) (length : Int)
  | addData (name : Option (List Char)) (value : List Char)
  | addRaw (data : List Char)
  | beginString (name : Option (List Char))
  | appendString (value : List Char)
  | endString
  | beginData (name : Option (List Char))
  | appendData (value : List Char)
  | endData
  | endEncode

/-- Dispatch one encoder operation. -/
def encStep (st : EncState) (op : EncOp) : Int × EncState :=
  match op with
  | .beginArray name => ttsdkjson_beginArray st name
  | .beginObject name => ttsdkjson_beginObject st name
  | .endContainer => ttsdkjson_endContainer st
  | .addBoolean name v => ttsdkjson_addBooleanElement st name v
  | .addInteger name v => ttsdkjson_addIntegerElement st name v
  | .addUInteger name v => ttsdkjson_addUIntegerElement st name v
  | .addFloating name v => ttsdkjson_addFloatingPointElement st name v
  | .addNull name => ttsdkjson_addNullElement st name
  | .addString name v len => ttsdkjson_addStringElement st name v len
  | .addData name v => ttsdkjson_addDataElement st name v
  | .addRaw d => ttsdkjson_addRawJSONData st d
  | .beginString name => ttsdkjson_beginStringElement st name
  | .appendString v => ttsdkjson_appendStringElement st v
  | .endString => ttsdkjson_endStringElement st
  | .beginData name => ttsdkjson_beginDataElement st name
  | .appendData v => ttsdkjson_appendDataElement st v
  | .endData => ttsdkjson_endDataElement st
  | .endEncode => ttsdkjson_endEncode st

/-- Run a whole encoder session: `ttsdkjson_beginEncode` followed by a list
of operations (statuses are ignored; the state after each operation is the
one the C code leaves in the context). -/
def encodeRun (prettyPrint : Bool) (sink : Nat → Int) (ops : List EncOp) : EncState :=
  ops.foldl (fun st op => (encStep st op).2) (ttsdkjson_beginEncode prettyPrint sink)

/-- Modelled from the spec: the width of the per-level `isObject` vector is
declared in the missing header; the spec asks implementations to document a
cap "e.g., 128", which the model adopts.  `ttsdkjson_beginArray` and
`ttsdkjson_beginObject` in the source never consult any such bound. -/
def encodeMaxDepth : Nat := 128

-- ===========================================================================
-- Decoder
-- ===========================================================================

/-- One decoder callback invocation, carrying the arguments the C callback
receives.  String-valued arguments (`name`, string element values) are the
decoded bytes; the C callback receives them NUL-terminated.  A floating-point
element records the verbatim digit span handed to `sscanf("%lg")` plus the
sign, which together determine the double value. -/
inductive JEvent
  | beginArray (name : Option (List Char))
  | beginObject (name : Option (List Char))
  | endContainer
  | boolean (name : Option (List Char)) (value : Bool)
  | integer (name : Option (List Char)) (value : Int)
  | uinteger (name : Option (List Char)) (value : Nat)
  | floating (name : Option (List Char)) (text : List Char) (sign : Int)
  | nullElement (name : Option (List Char))
  | stringElement (name : Option (List Char)) (value : List Char)
deriving DecidableEq

/-- The decoder callbacks: given the history of callbacks already invoked and
the current invocation, the status the callback returns. -/
abbrev DecCb := List JEvent → JEvent → Int

/-- Record an event and obtain the status its callback returns. -/
def emitEvent (cb : DecCb) (evs : List JEvent) (e : JEvent) : Int × List JEvent :=
  (cb evs e, evs ++ [e])

/-- The invalid marker of the `g_hexConversion` table. -/
def hexINV : Nat := 0x11111

/-- The `g_hexConversion` lookup table: hex digits map to their value, every
other byte maps to `hexINV` so that OR-combining four nybbles exceeds 0xffff
iff any digit was invalid. -/
def g_hexConversion (c : Char) : Nat :=
  if '0' ≤ c ∧ c ≤ '9' then c.toNat - '0'.toNat
  else if 'A' ≤ c ∧ c ≤ 'F' then c.toNat - 'A'.toNat + 10
  else if 'a' ≤ c ∧ c ≤ 'f' then c.toNat - 'a'.toNat + 10
  else hexINV

/-- `writeUTF8`: encode a scalar in 1-4 UTF-8 bytes; values above 0x10ffff
cannot be encoded (`none`, which the caller turns into `InvalidCharacter`). -/
def writeUTF8 (character : Nat) : Option (List Char) :=
  if character ≤ 0x7f then some [Char.ofNat character]
  else if character ≤ 0x7ff then
    some [Char.ofNat (0xc0 ||| (character >>> 6)),
          Char.ofNat (0x80 ||| (character &&& 0x3f))]
  else if character ≤ 0xffff then
    some [Char.ofNat (0xe0 ||| (character >>> 12)),
          Char.ofNat (0x80 ||| ((character >>> 6) &&& 0x3f)),
          Char.ofNat (0x80 ||| (character &&& 0x3f))]
  else if character ≤ 0x10ffff then
    some [Char.ofNat (0xf0 ||| (character >>> 18)),
          Char.ofNat (0x80 ||| ((character >>> 12) &&& 0x3f)),
          Char.ofNat (0x80 ||| ((character >>> 6) &&& 0x3f)),
          Char.ofNat (0x80 ||| (character &&& 0x3f))]
  else none

/-- The quote-scanning loop of `decodeString`: starting just after the opening
quote, find the terminating unescaped quote, skipping the byte after every
backslash.  Returns the raw content, the `fastCopy` flag (false iff a
backslash was seen), and the bytes after the closing quote; `none` when the
buffer ends first (`Incomplete`). -/
def scanString : List Char → Option (List Char × Bool × List Char)
  | [] => none
  | c :: rest =>
    if c = '"' then some ([], true, rest)
    else if c = '\\' then
      match rest with
      | [] => none
      | c2 :: rest2 => (scanString rest2).map (fun r => ('\\' :: c2 :: r.1, false, r.2.2))
    else (scanString rest).map (fun r => (c :: r.1, r.2.1, r.2.2))

/-- The escape-resolving loop of `decodeString`'s slow path, applied to the
raw content between the quotes.  Returns the bytes written to the destination
so far and, when the loop aborted, the error status.  The `'\\' :: []` case
cannot arise from `scanString` output (the scan skips the byte after every
backslash), but mirrors what the C loop would do there: it reads the closing
quote that delimits the content and emits it. -/
def resolveEscapes : List Char → List Char × Option Int
  | [] => ([], none)
  | '\\' :: [] => (['"'], none)
  | '\\' :: 'u' :: h1 :: h2 :: h3 :: h4 :: rest =>
    let accum := (g_hexConversion h1 <<< 12) ||| (g_hexConversion h2 <<< 8) |||
                 (g_hexConversion h3 <<< 4) ||| g_hexConversion h4
    if accum > 0xffff then ([], some TTSDKJSON_ERROR_INVALID_CHARACTER)
    else if 0xdc00 ≤ accum ∧ accum ≤ 0xdfff then ([], some TTSDKJSON_ERROR_INVALID_CHARACTER)
    else if 0xd800 ≤ accum ∧ accum ≤ 0xdbff then
      match rest with
      | r1 :: r2 :: h5 :: h6 :: h7 :: h8 :: rest2 =>
        if r1 = '\\' ∧ r2 = 'u' then
          let accum2 := (g_hexConversion h5 <<< 12) ||| (g_hexConversion h6 <<< 8) |||
                        (g_hexConversion h7 <<< 4) ||| g_hexConversion h8
          if accum2 < 0xdc00 ∨ 0xdfff < accum2 then ([], some TTSDKJSON_ERROR_INVALID_CHARACTER)
          else
            match writeUTF8 (((accum - 0xd800) <<< 10) ||| (accum2 - 0xdc00)) with
            | none => ([], some TTSDKJSON_ERROR_INVALID_CHARACTER)
            | some bytes =>
              let r := resolveEscapes rest2
              (bytes ++ r.1, r.2)
      else ([], some TTSDKJSON_ERROR_INVALID_CHARACTER)
      | _ => ([], some TTSDKJSON_ERROR_INCOMPLETE)
    else
      match writeUTF8 accum with
      | none => ([], some TTSDKJSON_ERROR_INVALID_CHARACTER)
      | some bytes =>
        let r := resolveEscapes rest
        (bytes ++ r.1, r.2)
  | '\\' :: 'u' :: _ => ([], some TTSDKJSON_ERROR_INCOMPLETE)
  | '\\' :: c :: rest =>
    let m : Option Char :=
      if c = '"' then some '"'
      else if c = '\\' then some '\\'
      else if c = 'n' then some '\n'
      else if c = 'r' then some '\r'
      else if c = '/' then some '/'
      else if c = 't' then some '\t'
      else if c = 'b' then some '\x08'
      else if c = 'f' then some '\x0c'
      else none
    match m with
    | some ch =>
      let r := resolveEscapes rest
      (ch :: r.1, r.2)
    | none => ([], some TTSDKJSON_ERROR_INVALID_CHARACTER)
  | c :: rest =>
    let r := resolveEscapes rest
    (c :: r.1, r.2)

/-- Result of `decodeString`: the status, the remaining buffer (`bufferPtr`
after the call), and the bytes the function wrote sequentially from the start
of the destination (after the unconditional initial NUL write, which is
modelled in `decodeStringInto`).  On success `written` ends with the
terminating NUL. -/
structure DecodeStringResult where
  status : Int
  rem : List Char
  written : List Char
deriving DecidableEq

/-- `decodeString`, effects on the buffer pointer and the destination
expressed positionally. -/
def decodeString (buffer : List Char) (dstBufferLength : Nat) : DecodeStringResult :=
  match buffer with
  | [] => ⟨TTSDKJSON_ERROR_INVALID_CHARACTER, [], []⟩
  | c :: afterQuote =>
    if c = '"' then
      match scanString afterQuote with
      | none => ⟨TTSDKJSON_ERROR_INCOMPLETE, c :: afterQuote, []⟩
      | some (content, fastCopy, rest) =>
        if content.length ≥ dstBufferLength then ⟨TTSDKJSON_ERROR_DATA_TOO_LONG, c :: afterQuote, []⟩
        else if fastCopy then ⟨TTSDKJSON_OK, rest, content ++ ['\x00']⟩
        else
          let r := resolveEscapes content
          match r.2 with
          | some err => ⟨err, rest, r.1⟩
          | none => ⟨TTSDKJSON_OK, rest, r.1 ++ ['\x00']⟩
    else ⟨TTSDKJSON_ERROR_INVALID_CHARACTER, c :: afterQuote, []⟩

/-- The unconditional `*dstBuffer = '\0'` performed on entry to
`decodeString`. -/
def setFirstZero : List Char → List Char
  | [] => []
  | _ :: rest => '\x00' :: rest

/-- Overlay bytes written sequentially from position 0 onto a buffer. -/
def overlayFromStart (base : List Char) (ws : List Char) : List Char :=
  ws ++ base.drop ws.length

/-- `decodeString` including its effect on a concrete destination buffer
(whose length plays the role of `dstBufferLength`): first byte zeroed, then
the copy loops' bytes laid down from position 0. -/
def decodeStringInto (buffer : List Char) (dst : List Char) : Int × List Char × List Char :=
  let r := decodeString buffer dst.length
  (r.status, r.rem, overlayFromStart (setFirstZero dst) r.written)

/-- C `isdigit`-driven accumulation loop of the number parser: consume
decimal digits into a `uint64_t` accumulator, stopping early (without
consuming the digit) when the next multiply or add would overflow.  Returns
the accumulator, the overflow flag, and the remaining buffer. -/
def ULLONG_MAX_N : Nat := 18446744073709551615

/-- See `ULLONG_MAX_N`. -/
def scanDigits : Nat → List Char → Nat × Bool × List Char
  | accum, [] => (accum, false, [])
  | accum, c :: rest =>
    if ¬ isDigitC c then (accum, false, c :: rest)
    else if accum > ULLONG_MAX_N / 10 then (accum, true, c :: rest)
    else
      let a2 := accum * 10
      let d := c.toNat - '0'.toNat
      if a2 > ULLONG_MAX_N - d then (a2, true, c :: rest)
      else scanDigits (a2 + d) rest

/-- `isFPChar`. -/
def isFPChar (c : Char) : Bool :=
  isDigitC c || c == '.' || c == 'e' || c == 'E' || c == '+' || c == '-'

/-- `LLONG_MAX` as a natural number. -/
def LLONG_MAX_N : Nat := 9223372036854775807

/-- Result of one decode step: status, remaining buffer (`bufferPtr`), and
the full event history after the step. -/
structure DecOut where
  status : Int
  buf : List Char
  events : List JEvent
deriving DecidableEq

/-- The number production of `decodeElement`.  `buf` starts at the first
digit (the C `start` pointer); a leading minus has already been consumed and
is reflected in `sign`. -/
def decodeNumberCase (cb : DecCb) (strLen : Nat) (name : Option (List Char))
    (evs : List JEvent) (sign : Int) (buf : List Char) : DecOut :=
  let s := scanDigits 0 buf
  let accum := s.1
  let isOverflow := s.2.1
  let rem := s.2.2
  match rem with
  | [] => ⟨TTSDKJSON_ERROR_INCOMPLETE, [], evs⟩
  | c :: _ =>
    let intPath : Option DecOut :=
      if ¬ isFPChar c ∧ ¬ isOverflow then
        if sign > 0 then
          if accum ≤ LLONG_MAX_N then
            let r := emitEvent cb evs (.integer name (Int.ofNat accum))
            some ⟨r.1, rem, r.2⟩
          else
            let r := emitEvent cb evs (.uinteger name accum)
            some ⟨r.1, rem, r.2⟩
        else
          if accum ≤ LLONG_MAX_N + 1 then
            let r := emitEvent cb evs (.integer name (-(Int.ofNat accum)))
            some ⟨r.1, rem, r.2⟩
          else none
      else none
    match intPath with
    | some out => out
    | none =>
      let rem2 := rem.dropWhile isFPChar
      match rem2 with
      | [] => ⟨TTSDKJSON_ERROR_INCOMPLETE, [], evs⟩
      | _ :: _ =>
        let len := buf.length - rem2.length
        if len ≥ strLen then ⟨TTSDKJSON_ERROR_DATA_TOO_LONG, rem2, evs⟩
        else
          let r := emitEvent cb evs (.floating name (buf.take len) sign)
          ⟨r.1, rem2, r.2⟩

/-- The `false` production (`buf` starts at `f`). -/
def decodeFalseCase (cb : DecCb) (name : Option (List Char)) (evs : List JEvent)
    (buf : List Char) : DecOut :=
  if buf.length < 5 then ⟨TTSDKJSON_ERROR_INCOMPLETE, buf, evs⟩
  else
    match buf with
    | _ :: 'a' :: 'l' :: 's' :: 'e' :: rest =>
      let r := emitEvent cb evs (.boolean name false)
      ⟨r.1, rest, r.2⟩
    | _ => ⟨TTSDKJSON_ERROR_INVALID_CHARACTER, buf, evs⟩

/-- The `true` production (`buf` starts at `t`). -/
def decodeTrueCase (cb : DecCb) (name : Option (List Char)) (evs : List JEvent)
    (buf : List Char) : DecOut :=
  if buf.length < 4 then ⟨TTSDKJSON_ERROR_INCOMPLETE, buf, evs⟩
  else
    match buf with
    | _ :: 'r' :: 'u' :: 'e' :: rest =>
      let r := emitEvent cb evs (.boolean name true)
      ⟨r.1, rest, r.2⟩
    | _ => ⟨TTSDKJSON_ERROR_INVALID_CHARACTER, buf, evs⟩

/-- The `null` production (`buf` starts at `n`). -/
def decodeNullCase (cb : DecCb) (name : Option (List Char)) (evs : List JEvent)
    (buf : List Char) : DecOut :=
  if buf.length < 4 then ⟨TTSDKJSON_ERROR_INCOMPLETE, buf, evs⟩
  else
    match buf with
    | _ :: 'u' :: 'l' :: 'l' :: rest =>
      let r := emitEvent cb evs (.nullElement name)
      ⟨r.1, rest, r.2⟩
    | _ => ⟨TTSDKJSON_ERROR_INVALID_CHARACTER, buf, evs⟩

/-- The string production: decode into the string buffer and invoke the
string callback with the decoded bytes. -/
def decodeStringCase (cb : DecCb) (strLen : Nat) (name : Option (List Char))
    (evs : List JEvent) (buf : List Char) : DecOut :=
  let r := decodeString buf strLen
  if r.status ≠ TTSDKJSON_OK then ⟨r.status, r.rem, evs⟩
  else
    let e := emitEvent cb evs (.stringElement name r.written.dropLast)
    ⟨e.1, r.rem, e.2⟩

mutual

/-- `decodeElement`: skip whitespace, dispatch on the leading byte.  The
`fuel` argument bounds the recursion depth and loop iterations; `none` means
the fuel ran out (every theorem below supplies sufficient fuel).  A minus
sign at the very end of the buffer makes the C code read past `bufferEnd`
(undefined behavior); the model returns `InvalidCharacter` there.  `nameLen`
and `strLen` are the lengths of the name and string scratch buffers. -/
def decodeElement (cb : DecCb) (nameLen strLen : Nat) :
    Nat → Option (List Char) → List JEvent → List Char → Option DecOut
  | 0, _, _, _ => none
  | fuel + 1, name, evs, buf0 =>
    let buf := buf0.dropWhile isSpaceC
    match buf with
    | [] => some ⟨TTSDKJSON_ERROR_INCOMPLETE, [], evs⟩
    | c :: rest =>
      if c = '[' then
        let r := emitEvent cb evs (.beginArray name)
        if r.1 ≠ TTSDKJSON_OK then some ⟨r.1, rest, r.2⟩
        else decodeArrayLoop cb nameLen strLen fuel r.2 rest
      else if c = '{' then
        let r := emitEvent cb evs (.beginObject name)
        if r.1 ≠ TTSDKJSON_OK then some ⟨r.1, rest, r.2⟩
        else decodeObjectLoop cb nameLen strLen fuel r.2 rest
      else if c = '"' then some (decodeStringCase cb strLen name evs buf)
      else if c = 'f' then some (decodeFalseCase cb name evs buf)
      else if c = 't' then some (decodeTrueCase cb name evs buf)
      else if c = 'n' then some (decodeNullCase cb name evs buf)
      else if c = '-' then
        match rest with
        | [] => some ⟨TTSDKJSON_ERROR_INVALID_CHARACTER, [], evs⟩
        | d :: _ =>
          if ¬ isDigitC d then some ⟨TTSDKJSON_ERROR_INVALID_CHARACTER, rest, evs⟩
          else some (decodeNumberCase cb strLen name evs (-1) rest)
      else if isDigitC c then some (decodeNumberCase cb strLen name evs 1 buf)
      else some ⟨TTSDKJSON_ERROR_INVALID_CHARACTER, buf, evs⟩

/-- The `[` production's loop: skip whitespace; `]` closes the container;
otherwise decode a nameless element, then optionally consume one comma. -/
def decodeArrayLoop (cb : DecCb) (nameLen strLen : Nat) :
    Nat → List JEvent → List Char → Option DecOut
  | 0, _, _ => none
  | fuel + 1, evs, buf0 =>
    let buf := buf0.dropWhile isSpaceC
    match buf with
    | [] => some ⟨TTSDKJSON_ERROR_INCOMPLETE, [], evs⟩
    | c :: rest =>
      if c = ']' then
        let r := emitEvent cb evs .endContainer
        some ⟨r.1, rest, r.2⟩
      else
        match decodeElement cb nameLen strLen fuel none evs buf with
        | none => none
        | some r =>
          if r.status ≠ TTSDKJSON_OK then some r
          else
            let buf2 := r.buf.dropWhile isSpaceC
            match buf2 with
            | [] => some ⟨TTSDKJSON_ERROR_INCOMPLETE, [], r.events⟩
            | d :: rest2 =>
              if d = ',' then decodeArrayLoop cb nameLen strLen fuel r.events rest2
              else decodeArrayLoop cb nameLen strLen fuel r.events buf2

/-- The `{` production's loop: skip whitespace; `}` closes the container;
otherwise decode a key string into the name buffer, expect `:`, decode the
value element under that name, then optionally consume one comma. -/
def decodeObjectLoop (cb : DecCb) (nameLen strLen : Nat) :
    Nat → List JEvent → List Char → Option DecOut
  | 0, _, _ => none
  | fuel + 1, evs, buf0 =>
    let buf := buf0.dropWhile isSpaceC
    match buf with
    | [] => some ⟨TTSDKJSON_ERROR_INCOMPLETE, [], evs⟩
    | c :: rest =>
      if c = '}' then
        let r := emitEvent cb evs .endContainer
        some ⟨r.1, rest, r.2⟩
      else
        let ks := decodeString buf nameLen
        if ks.status ≠ TTSDKJSON_OK then some ⟨ks.status, ks.rem, evs⟩
        else
          let key := ks.written.dropLast
          let buf2 := ks.rem.dropWhile isSpaceC
          match buf2 with
          | [] => some ⟨TTSDKJSON_ERROR_INCOMPLETE, [], evs⟩
          | d :: rest2 =>
            if d ≠ ':' then some ⟨TTSDKJSON_ERROR_INVALID_CHARACTER, buf2, evs⟩
            else
              match decodeElement cb nameLen strLen fuel (some key) evs
                  (rest2.dropWhile isSpaceC) with
              | none => none
              | some r =>
                if r.status ≠ TTSDKJSON_OK then some r
                else
                  let buf3 := r.buf.dropWhile isSpaceC
                  match buf3 with
                  | [] => some ⟨TTSDKJSON_ERROR_INCOMPLETE, [], r.events⟩
                  | e :: rest3 =>
                    if e = ',' then decodeObjectLoop cb nameLen strLen fuel r.events rest3
                    else decodeObjectLoop cb nameLen strLen fuel r.events buf3

end

/-- Result of `ttsdkjson_decode`: the final status, the decode context's
final buffer pointer, the callback record, whether `onEndData` ran, and the
value stored through a non-null `errorOffset` argument (`none` when nothing
was stored). -/
structure DecodedResult where
  status : Int
  buf : List Char
  events : List JEvent
  endDataInvoked : Bool
  errorOffsetStored : Option Int
deriving DecidableEq

/-- `ttsdkjson_decode`: split the scratch buffer 1/4 for names and 3/4 for
strings, decode one element, invoke `onEndData` only when the element decode
returned OK, and on a non-OK final result store `(int)(ptr - data)` through a
non-null `errorOffset` — where the C code initialises `ptr` to `data` and
never advances it, so the stored value is always 0. -/
def ttsdkjson_decode (fuel : Nat) (data : List Char) (stringBufferLength : Nat)
    (cb : DecCb) (endDataStatus : Int) (wantErrorOffset : Bool) : Option DecodedResult :=
  let nameBufferLength := stringBufferLength / 4
  let strLen := stringBufferLength - nameBufferLength
  match decodeElement cb nameBufferLength strLen fuel none [] data with
  | none => none
  | some r =>
    let invokeEnd := r.status = TTSDKJSON_OK
    let result := if invokeEnd then endDataStatus else r.status
    let stored := if result ≠ TTSDKJSON_OK ∧ wantErrorOffset then some (0 : Int) else none
    some ⟨result, r.buf, r.events, invokeEnd, stored⟩

-- ===========================================================================
-- Auxiliary definitions used to state the claims
-- ===========================================================================

/-- Decoder callbacks that always return OK. -/
def cbOK : DecCb := fun _ _ => TTSDKJSON_OK

/-- A sink that always returns OK. -/
def sinkOK : Nat → Int := fun _ => TTSDKJSON_OK

/-- A sink that returns `DataTooLong` for its second invocation (index 1) and
OK otherwise; used to exercise a failing body emission between two quote
emissions. -/
def sinkFailSecond : Nat → Int :=
  fun n => if n = 1 then TTSDKJSON_ERROR_DATA_TOO_LONG else TTSDKJSON_OK

/-- Number of container-open operations in one encoder operation. -/
def encOpOpens : EncOp → Int
  | .beginArray _ => 1
  | .beginObject _ => 1
  | _ => 0

/-- Number of container-open operations in an operation list. -/
def countContainerOpens (ops : List EncOp) : Int :=
  (ops.map encOpOpens).sum

/-- Join chunks with a separator (used to build array and object documents
from element texts). -/
def joinSep (sep : List Char) : List (List Char) → List Char
  | [] => []
  | [x] => x
  | x :: xs => x ++ sep ++ joinSep sep xs

/-- An element of a container for stating the separator-tolerance claim: the
raw text of the element together with the callback events its decode emits
under a given element name. -/
structure ElemSpec where
  text : List Char
  events : Option (List Char) → List JEvent

/-- A buffer that starts with a separator byte: one of comma, a closing
bracket or brace, or a space. -/
def SepStart (rest : List Char) : Prop :=
  ∃ c t, rest = c :: t ∧ (c = ',' ∨ c = ']' ∨ c = '}' ∨ c = ' ')

/-- A self-delimiting element (with respect to scratch-buffer lengths): its
text is nonempty, starts with neither whitespace nor a separator byte, and
whenever followed by a separator byte it decodes with status OK under the
all-OK callbacks, consuming exactly its text and appending exactly its
events, for every sufficient fuel, name, and prior event history. -/
def SelfDelim (nameLen strLen : Nat) (e : ElemSpec) : Prop :=
  (∃ c t, e.text = c :: t ∧ isSpaceC c = false ∧ c ≠ ',' ∧ c ≠ ']' ∧ c ≠ '}') ∧
  ∀ (fuel : Nat) (rest : List Char) (name : Option (List Char)) (evs : List JEvent),
    e.text.length + 1 ≤ fuel → SepStart rest →
    decodeElement cbOK nameLen strLen fuel name evs (e.text ++ rest) =
      some ⟨TTSDKJSON_OK, rest, evs ++ e.events name⟩

/-- A key/value pair of an object document. -/
structure PairSpec where
  key : List Char
  elem : ElemSpec

/-- A key that the object loop decodes cleanly into the name buffer: plain
bytes (no quote, no backslash) short enough for the name scratch buffer. -/
def GoodKey (nameLen : Nat) (k : List Char) : Prop :=
  k.length < nameLen ∧ '"' ∉ k ∧ '\\' ∉ k

/-- The raw text of one object pair: quoted key, colon, element text. -/
def pairText (p : PairSpec) : List Char :=
  '"' :: p.key ++ '"' :: ':' :: p.elem.text

/-- An array document with the given single-byte separator between
elements. -/
def arrayDocSep (sep : Char) (es : List ElemSpec) : List Char :=
  '[' :: (joinSep [sep] (es.map ElemSpec.text) ++ [']'])

/-- An array document, comma-separated, with a trailing comma immediately
before the closing bracket (meaningful for a nonempty element list). -/
def arrayDocTrail (es : List ElemSpec) : List Char :=
  '[' :: (joinSep [','] (es.map ElemSpec.text) ++ [',', ']'])

/-- The callback sequence a whole-document array decode produces. -/
def arrayEvents (es : List ElemSpec) : List JEvent :=
  JEvent.beginArray none :: ((es.map (fun e => e.events none)).flatten ++ [JEvent.endContainer])

/-- An object document with the given single-byte separator between pairs. -/
def objectDocSep (sep : Char) (ps : List PairSpec) : List Char :=
  '{' :: (joinSep [sep] (ps.map pairText) ++ ['}'])

/-- An object document, comma-separated, with a trailing comma immediately
before the closing brace (meaningful for a nonempty pair list). -/
def objectDocTrail (ps : List PairSpec) : List Char :=
  '{' :: (joinSep [','] (ps.map pairText) ++ [',', '}'])

/-- The callback sequence a whole-document object decode produces. -/
def objectEvents (ps : List PairSpec) : List JEvent :=
  JEvent.beginObject none ::
    ((ps.map (fun p => p.elem.events (some p.key))).flatten ++ [JEvent.endContainer])

/-- Total text length of array elements. -/
def sumLen (es : List ElemSpec) : Nat :=
  (es.map (fun e => e.text.length)).sum

/-- Total text length of object pairs. -/
def sumPairLen (ps : List PairSpec) : Nat :=
  (ps.map (fun p => (pairText p).length)).sum

/-- The element `true`, for concrete instantiations. -/
def elemTrue : ElemSpec :=
  ⟨"true".toList, fun n => [JEvent.boolean n true]⟩

/-- The element `1`, for concrete instantiations. -/
def elemOne : ElemSpec :=
  ⟨"1".toList, fun n => [JEvent.integer n 1]⟩

/-- The element `null`, for concrete instantiations. -/
def elemNullSpec : ElemSpec :=
  ⟨"null".toList, fun n => [JEvent.nullElement n]⟩

/-- The pair `"a": null`, for concrete instantiations. -/
def pairA : PairSpec :=
  ⟨['a'], elemNullSpec⟩

-- ===========================================================================
-- Theorems
-- ===========================================================================

/-- C5: for every double value, the number formatter (here with the 64-byte
buffer `ttsdkjson_addFloatingPointElement` supplies) produces exactly the
literal text `null` for NaN, exactly `1e999` for positive infinity, and
exactly `-1e999` for negative infinity. -/
theorem claim_C5_formatDouble_nonfinite :
    formatDouble 64 CDouble.nan = (TTSDKJSON_OK, "null".toList) ∧
    formatDouble 64 (CDouble.inf true) = (TTSDKJSON_OK, "1e999".toList) ∧
    formatDouble 64 (CDouble.inf false) = (TTSDKJSON_OK, "-1e999".toList) := by
  refine ⟨?_, ?_, ?_⟩ <;> decide

/-- C6: for every encoder state with containerLevel ≤ 0, the container-close
operation returns OK and leaves the whole state — every context field and
the record of sink invocations — unchanged, so no bytes are emitted. -/
theorem claim_C6_endContainer_noop (st : EncState)
    (h : st.ctx.containerLevel ≤ 0) :
    ttsdkjson_endContainer st = (TTSDKJSON_OK, st) := by
  simp [ttsdkjson_endContainer, h]

/-- Witness for `claim_C6_endContainer_noop` at the freshly initialised
encoder state (level 0). -/
theorem claim_C6_endContainer_noop_witness :
    ttsdkjson_endContainer (ttsdkjson_beginEncode false sinkOK) =
      (TTSDKJSON_OK, ttsdkjson_beginEncode false sinkOK) :=
  claim_C6_endContainer_noop (ttsdkjson_beginEncode false sinkOK) (by decide)

/-- C1 (evaluation of the code at a failing input): decoding `[q` fails with
`InvalidCharacter`; the first error is detected at byte offset 1 (the final
buffer pointer stands on `q`), yet the value stored through the non-null
`errorOffset` argument is 0, because `ttsdkjson_decode` computes it from a
pointer it initialises to `data` and never advances. -/
theorem claim_C1_errorOffset_always_zero :
    (ttsdkjson_decode 8 "[q".toList 64 cbOK TTSDKJSON_OK true).map
        (fun r => (r.status, r.errorOffsetStored, "[q".toList.length - r.buf.length)) =
      some (TTSDKJSON_ERROR_INVALID_CHARACTER, some (0 : Int), 1) := by
  decide

/-- C2 (evaluation of the code at the failing input): decoding the JSON
string `"😀"` succeeds and invokes the string callback, but the
surrogate pair is combined without the `+ 0x10000` step of the UTF-16 rules,
producing the scalar U+F600 and hence the UTF-8 bytes `EF 98 80` instead of
the claimed `F0 9F 98 80`. -/
theorem claim_C2_surrogate_pair_bytes :
    (ttsdkjson_decode 8 "\"\\uD83D\\uDE00\"".toList 64 cbOK TTSDKJSON_OK false).map
        (fun r => (r.status, r.events)) =
      some (TTSDKJSON_OK,
        [JEvent.stringElement none [Char.ofNat 0xef, Char.ofNat 0x98, Char.ofNat 0x80]]) ∧
    [Char.ofNat 0xef, Char.ofNat 0x98, Char.ofNat 0x80] ≠
      [Char.ofNat 0xf0, Char.ofNat 0x9f, Char.ofNat 0x98, Char.ofNat 0x80] := by
  constructor <;> decide

/-- C4 counterexample: decoding an input whose entire content is the digit
string 18446744073709551615 (UINT64_MAX) does not invoke any callback and
does not return OK: the number parser finds the buffer exhausted right after
the digits and returns Incomplete. -/
theorem claim_C4_bare_uint64_incomplete :
    (ttsdkjson_decode 30 "18446744073709551615".toList 64 cbOK TTSDKJSON_OK false).map
        (fun r => (r.status, r.events, r.endDataInvoked)) =
      some (TTSDKJSON_ERROR_INCOMPLETE, [], false) := by
  decide

/-- C4 amended: decoding 18446744073709551615 followed by a delimiter byte
(here a space) invokes onUnsignedIntegerElement with 18446744073709551615
and returns OK — the value is positive, the unsigned accumulation does not
overflow, and the accumulated value exceeds INT64_MAX. -/
theorem claim_C4_uint64_with_delimiter :
    (ttsdkjson_decode 30 "18446744073709551615 ".toList 64 cbOK TTSDKJSON_OK false).map
        (fun r => (r.status, r.events, r.endDataInvoked)) =
      some (TTSDKJSON_OK, [JEvent.uinteger none 18446744073709551615], true) := by
  decide

/-- Failures that decodeString detects before resolving escapes (wrong
opening quote, no closing quote found, content too long for the destination)
return a non-OK status having written nothing beyond the initial NUL. -/
lemma decodeString_early (buffer : List Char) (dlen : Nat)
    (h : buffer.head? ≠ some '"' ∨
         (∃ t, buffer = '"' :: t ∧ scanString t = none) ∨
         (∃ t content fastCopy rest, buffer = '"' :: t ∧
            scanString t = some (content, fastCopy, rest) ∧ dlen ≤ content.length)) :
    (decodeString buffer dlen).status ≠ TTSDKJSON_OK ∧
    (decodeString buffer dlen).written = [] := by
  rcases h with h1 | ⟨t, rfl, h2⟩ | ⟨t, content, fastCopy, rest, rfl, h3, hlen⟩
  · cases buffer with
    | nil =>
      refine ⟨?_, rfl⟩
      simp [decodeString, TTSDKJSON_ERROR_INVALID_CHARACTER, TTSDKJSON_OK]
    | cons c t =>
      have hc : ¬(c = '"') := by simpa using h1
      refine ⟨?_, ?_⟩ <;>
        simp [decodeString, if_neg hc, TTSDKJSON_ERROR_INVALID_CHARACTER, TTSDKJSON_OK]
  · refine ⟨?_, ?_⟩ <;>
      simp [decodeString, h2, TTSDKJSON_ERROR_INCOMPLETE, TTSDKJSON_OK]
  · refine ⟨?_, ?_⟩ <;>
      simp [decodeString, h3, hlen, TTSDKJSON_ERROR_DATA_TOO_LONG, TTSDKJSON_OK]

/-- C9 counterexample: the failing decode of the string `"a\q"` (invalid
escape after one content byte was copied) into a buffer previously holding
`abcde` leaves the destination byte-for-byte unchanged — its first byte is
`a`, not 0 — refuting both "not left unchanged" and "first byte set to 0"
for this failing decode. -/
theorem claim_C9_invalid_escape_leaves_buffer :
    decodeStringInto "\"a\\q\"".toList "abcde".toList =
      (TTSDKJSON_ERROR_INVALID_CHARACTER, [], "abcde".toList) ∧
    ("abcde".toList).head? ≠ some '\x00' := by
  constructor <;> decide

/-- C9 amended: the string decoder does write 0 to the first destination
byte before validating, and for every failure detected before escape
resolution — wrong opening quote, no closing quote inside the buffer
(Incomplete), or content too long (DataTooLong) — the destination's first
byte is 0 on return; a failure inside escape resolution (invalid escape) can
occur after content bytes have overwritten it. -/
theorem claim_C9_early_failure_zeroes_first_byte (buffer dst : List Char)
    (hdst : dst ≠ [])
    (h : buffer.head? ≠ some '"' ∨
         (∃ t, buffer = '"' :: t ∧ scanString t = none) ∨
         (∃ t content fastCopy rest, buffer = '"' :: t ∧
            scanString t = some (content, fastCopy, rest) ∧ dst.length ≤ content.length)) :
    (decodeStringInto buffer dst).1 ≠ TTSDKJSON_OK ∧
    ((decodeStringInto buffer dst).2.2).head? = some '\x00' := by
  have he := decodeString_early buffer dst.length h
  have hinto : decodeStringInto buffer dst =
      ((decodeString buffer dst.length).status, (decodeString buffer dst.length).rem,
        overlayFromStart (setFirstZero dst) (decodeString buffer dst.length).written) := rfl
  rw [hinto]
  refine ⟨he.1, ?_⟩
  rw [he.2]
  cases dst with
  | nil => exact absurd rfl hdst
  | cons a b => simp [overlayFromStart, setFirstZero]

/-- Witness for `claim_C9_early_failure_zeroes_first_byte`: input `x` (wrong
opening quote) and a two-byte destination. -/
theorem claim_C9_early_failure_zeroes_first_byte_witness :
    (decodeStringInto ['x'] ['a', 'b']).1 ≠ TTSDKJSON_OK ∧
    ((decodeStringInto ['x'] ['a', 'b']).2.2).head? = some '\x00' :=
  claim_C9_early_failure_zeroes_first_byte ['x'] ['a', 'b'] (by decide) (Or.inl (by decide))

/-- C3 counterexample: with a sink that answers OK, DataTooLong, OK to the
three emissions of `addQuotedEscapedString` on the one-byte string `a`, the
body emission fails with DataTooLong (= 2) and the closing quote is still
emitted, but the function returns 1 — C's `result || closeResult` — not the
first non-OK status code. -/
theorem claim_C3_status_not_preserved :
    (addQuotedEscapedString ⟨⟨sinkFailSecond, false, 0, fun _ => false, true⟩, []⟩ ['a']).1 = 1 ∧
    (addEscapedString (addJSONData ⟨⟨sinkFailSecond, false, 0, fun _ => false, true⟩, []⟩ ['"']).2
        ['a']).1 = TTSDKJSON_ERROR_DATA_TOO_LONG ∧
    (addQuotedEscapedString ⟨⟨sinkFailSecond, false, 0, fun _ => false, true⟩, []⟩ ['a']).2.calls =
      [['"'], ['a'], ['"']] ∧
    (1 : Int) ≠ TTSDKJSON_ERROR_DATA_TOO_LONG := by
  refine ⟨?_, ?_, ?_, ?_⟩ <;> decide

/-- C3 amended: whenever the opening quote emission succeeded and the
escaped-body emission returns a non-OK status, `addQuotedEscapedString`
still emits the closing double quote (as its final sink call) and returns a
non-OK status — but that status is the C logical-or, the int 1, rather than
the body's status code, which is preserved only when it already equals 1. -/
theorem claim_C3_close_quote_collapsed_status (st : EncState) (s : List Char)
    (h1 : (addJSONData st ['"']).1 = TTSDKJSON_OK)
    (h2 : (addEscapedString (addJSONData st ['"']).2 s).1 ≠ TTSDKJSON_OK) :
    (addQuotedEscapedString st s).1 = 1 ∧
    (addQuotedEscapedString st s).2.calls =
      (addEscapedString (addJSONData st ['"']).2 s).2.calls ++ [['"']] := by
  have h2' : (addEscapedString (addJSONData st ['"']).2 s).1 ≠ 0 := h2
  unfold addQuotedEscapedString
  rw [if_neg (by simp [h1])]
  refine ⟨?_, ?_⟩
  · simp [cBoolOr, h2']
  · simp [addJSONData]

/-- Witness for `claim_C3_close_quote_collapsed_status` with the
second-call-fails sink and the one-byte string `b`. -/
theorem claim_C3_close_quote_collapsed_status_witness :
    (addQuotedEscapedString ⟨⟨sinkFailSecond, false, 0, fun _ => false, true⟩, []⟩ ['b']).1 = 1 ∧
    (addQuotedEscapedString ⟨⟨sinkFailSecond, false, 0, fun _ => false, true⟩, []⟩ ['b']).2.calls =
      (addEscapedString (addJSONData ⟨⟨sinkFailSecond, false, 0, fun _ => false, true⟩, []⟩ ['"']).2
          ['b']).2.calls ++ [['"']] :=
  claim_C3_close_quote_collapsed_status _ _ (by decide) (by decide)

/-- C10: `ttsdkjson_decode` invokes `onEndData` if and only if the element
decode returned OK; on any decode error `onEndData` is not invoked and the
decode error is the returned status, whatever status `onEndData` would have
returned. -/
theorem claim_C10_endData_iff_decode_ok (fuel : Nat) (data : List Char) (sbl : Nat)
    (cb : DecCb) (endSt : Int) (wo : Bool) (d : DecOut)
    (h : decodeElement cb (sbl / 4) (sbl - sbl / 4) fuel none [] data = some d) :
    ∃ r, ttsdkjson_decode fuel data sbl cb endSt wo = some r ∧
      (r.endDataInvoked ↔ d.status = TTSDKJSON_OK) ∧
      (d.status ≠ TTSDKJSON_OK → r.status = d.status ∧ r.endDataInvoked = false) ∧
      (d.status = TTSDKJSON_OK → r.status = endSt) := by
  have key : ttsdkjson_decode fuel data sbl cb endSt wo =
      some ⟨if d.status = TTSDKJSON_OK then endSt else d.status, d.buf, d.events,
            decide (d.status = TTSDKJSON_OK),
            if (if d.status = TTSDKJSON_OK then endSt else d.status) ≠ TTSDKJSON_OK ∧ wo = true
              then some 0 else none⟩ := by
    simp only [ttsdkjson_decode, h]
  refine ⟨_, key, ?_, ?_, ?_⟩
  · by_cases hs : d.status = TTSDKJSON_OK <;> simp [hs]
  · intro hne
    constructor <;> simp [hne]
  · intro hok
    simp [hok]

/-- Witness for `claim_C10_endData_iff_decode_ok` at the failing input `[q`
(the inner decode returns InvalidCharacter after the begin-array event). -/
theorem claim_C10_endData_iff_decode_ok_witness :
    ∃ r, ttsdkjson_decode 8 "[q".toList 64 cbOK TTSDKJSON_OK false = some r ∧
      (r.endDataInvoked ↔
        (DecOut.mk TTSDKJSON_ERROR_INVALID_CHARACTER ['q'] [JEvent.beginArray none]).status =
          TTSDKJSON_OK) ∧
      ((DecOut.mk TTSDKJSON_ERROR_INVALID_CHARACTER ['q'] [JEvent.beginArray none]).status ≠
          TTSDKJSON_OK →
        r.status =
            (DecOut.mk TTSDKJSON_ERROR_INVALID_CHARACTER ['q'] [JEvent.beginArray none]).status ∧
          r.endDataInvoked = false) ∧
      ((DecOut.mk TTSDKJSON_ERROR_INVALID_CHARACTER ['q'] [JEvent.beginArray none]).status =
          TTSDKJSON_OK →
        r.status = TTSDKJSON_OK) :=
  claim_C10_endData_iff_decode_ok 8 "[q".toList 64 cbOK TTSDKJSON_OK false
    (DecOut.mk TTSDKJSON_ERROR_INVALID_CHARACTER ['q'] [JEvent.beginArray none]) (by decide)

/-- `addJSONData` leaves the encoder context untouched. -/
lemma addJSONData_ctx (st : EncState) (d : List Char) :
    (addJSONData st d).2.ctx = st.ctx := rfl

/-- `appendEscapedString` leaves the encoder context untouched. -/
lemma appendEscapedString_ctx (st : EncState) (s : List Char) :
    (appendEscapedString st s).2.ctx = st.ctx := by
  unfold appendEscapedString
  cases escapeChunk s <;> rfl

/-- The `addEscapedString` loop leaves the encoder context untouched. -/
lemma addEscapedStringLoop_ctx (fuel : Nat) :
    ∀ (st : EncState) (s : List Char), (addEscapedStringLoop fuel st s).2.ctx = st.ctx := by
  induction fuel with
  | zero =>
    intro st s
    cases s <;> rfl
  | succ f ih =>
    intro st s
    cases s with
    | nil => rfl
    | cons a l =>
      simp only [addEscapedStringLoop]
      split
      · exact appendEscapedString_ctx ..
      · rw [ih]
        exact appendEscapedString_ctx ..

/-- `addEscapedString` leaves the encoder context untouched. -/
lemma addEscapedString_ctx (st : EncState) (s : List Char) :
    (addEscapedString st s).2.ctx = st.ctx :=
  addEscapedStringLoop_ctx s.length st s

/-- `addQuotedEscapedString` leaves the encoder context untouched. -/
lemma addQuotedEscapedString_ctx (st : EncState) (s : List Char) :
    (addQuotedEscapedString st s).2.ctx = st.ctx := by
  simp only [addQuotedEscapedString]
  split
  · exact addJSONData_ctx ..
  · simp [addJSONData_ctx, addEscapedString_ctx]

/-- `emitIndent` leaves the encoder context untouched. -/
lemma emitIndent_ctx (n : Nat) : ∀ st : EncState, (emitIndent n st).2.ctx = st.ctx := by
  induction n with
  | zero => intro st; rfl
  | succ m ih =>
    intro st
    simp only [emitIndent]
    split
    · exact addJSONData_ctx ..
    · rw [ih]
      exact addJSONData_ctx ..

/-- `ttsdkjson_appendDataElement` leaves the encoder context untouched. -/
lemma ttsdkjson_appendDataElement_ctx :
    ∀ (value : List Char) (st : EncState), (ttsdkjson_appendDataElement st value).2.ctx = st.ctx := by
  intro value
  induction value with
  | nil => intro st; rfl
  | cons b l ih =>
    intro st
    simp only [ttsdkjson_appendDataElement]
    split
    · exact addJSONData_ctx ..
    · rw [ih]
      exact addJSONData_ctx ..

/-- `ttsdkjson_beginElement` can change only `containerFirstEntry`: the
container level is preserved. -/
lemma ttsdkjson_beginElement_level (st : EncState) (name : Option (List Char)) :
    (ttsdkjson_beginElement st name).2.ctx.containerLevel = st.ctx.containerLevel := by
  have hcomma : ∀ s : EncState, (beginElementComma s).2.ctx.containerLevel = s.ctx.containerLevel := by
    intro s
    simp only [beginElementComma]
    split
    · rfl
    · exact congrArg EncCtx.containerLevel (addJSONData_ctx ..)
  have hindent : ∀ s : EncState, (beginElementIndent s).2.ctx.containerLevel = s.ctx.containerLevel := by
    intro s
    simp only [beginElementIndent]
    split
    · split
      · exact congrArg EncCtx.containerLevel (addJSONData_ctx ..)
      · rw [congrArg EncCtx.containerLevel (emitIndent_ctx ..)]
        exact congrArg EncCtx.containerLevel (addJSONData_ctx ..)
    · rfl
  have hname : ∀ (s : EncState) (nm : Option (List Char)),
      (beginElementName s nm).2.ctx.containerLevel = s.ctx.containerLevel := by
    intro s nm
    simp only [beginElementName]
    split
    · match nm with
      | none => rfl
      | some n =>
        simp only []
        split
        · exact congrArg EncCtx.containerLevel (addQuotedEscapedString_ctx ..)
        · split <;>
            (rw [congrArg EncCtx.containerLevel (addJSONData_ctx ..)]
             exact congrArg EncCtx.containerLevel (addQuotedEscapedString_ctx ..))
    · rfl
  simp only [ttsdkjson_beginElement]
  split
  · exact hcomma st
  · split
    · rw [hindent, hcomma]
    · rw [hname, hindent, hcomma]

/-- Level-preservation corollaries of the context lemmas. -/
lemma addJSONData_level (st : EncState) (d : List Char) :
    (addJSONData st d).2.ctx.containerLevel = st.ctx.containerLevel := rfl

/-- See `addJSONData_level`. -/
lemma addEscapedString_level (st : EncState) (s : List Char) :
    (addEscapedString st s).2.ctx.containerLevel = st.ctx.containerLevel :=
  congrArg EncCtx.containerLevel (addEscapedString_ctx ..)

/-- See `addJSONData_level`. -/
lemma addQuotedEscapedString_level (st : EncState) (s : List Char) :
    (addQuotedEscapedString st s).2.ctx.containerLevel = st.ctx.containerLevel :=
  congrArg EncCtx.containerLevel (addQuotedEscapedString_ctx ..)

/-- See `addJSONData_level`. -/
lemma ttsdkjson_appendDataElement_level (st : EncState) (v : List Char) :
    (ttsdkjson_appendDataElement st v).2.ctx.containerLevel = st.ctx.containerLevel :=
  congrArg EncCtx.containerLevel (ttsdkjson_appendDataElement_ctx ..)

/-- `addFormattedNumber` preserves the container level. -/
lemma addFormattedNumber_level (st : EncState) (name : Option (List Char)) (text : List Char) :
    (addFormattedNumber st name text).2.ctx.containerLevel = st.ctx.containerLevel := by
  simp only [addFormattedNumber]
  split
  · exact ttsdkjson_beginElement_level ..
  · rw [addJSONData_level, ttsdkjson_beginElement_level]

/-- `ttsdkjson_addBooleanElement` preserves the container level. -/
lemma ttsdkjson_addBooleanElement_level (st : EncState) (name : Option (List Char)) (v : Bool) :
    (ttsdkjson_addBooleanElement st name v).2.ctx.containerLevel = st.ctx.containerLevel := by
  simp only [ttsdkjson_addBooleanElement]
  split
  · exact ttsdkjson_beginElement_level ..
  · split <;> rw [addJSONData_level, ttsdkjson_beginElement_level]

/-- `ttsdkjson_addFloatingPointElement` preserves the container level. -/
lemma ttsdkjson_addFloatingPointElement_level (st : EncState) (name : Option (List Char))
    (v : CDouble) :
    (ttsdkjson_addFloatingPointElement st name v).2.ctx.containerLevel = st.ctx.containerLevel := by
  simp only [ttsdkjson_addFloatingPointElement]
  split
  · rfl
  · exact addFormattedNumber_level ..

/-- `ttsdkjson_addIntegerElement` preserves the container level. -/
lemma ttsdkjson_addIntegerElement_level (st : EncState) (name : Option (List Char)) (v : Int) :
    (ttsdkjson_addIntegerElement st name v).2.ctx.containerLevel = st.ctx.containerLevel := by
  simp only [ttsdkjson_addIntegerElement]
  split
  · rfl
  · exact addFormattedNumber_level ..

/-- `ttsdkjson_addUIntegerElement` preserves the container level. -/
lemma ttsdkjson_addUIntegerElement_level (st : EncState) (name : Option (List Char)) (v : Nat) :
    (ttsdkjson_addUIntegerElement st name v).2.ctx.containerLevel = st.ctx.containerLevel := by
  simp only [ttsdkjson_addUIntegerElement]
  split
  · rfl
  · exact addFormattedNumber_level ..

/-- `ttsdkjson_addNullElement` preserves the container level. -/
lemma ttsdkjson_addNullElement_level (st : EncState) (name : Option (List Char)) :
    (ttsdkjson_addNullElement st name).2.ctx.containerLevel = st.ctx.containerLevel := by
  simp only [ttsdkjson_addNullElement]
  split
  · exact ttsdkjson_beginElement_level ..
  · rw [addJSONData_level, ttsdkjson_beginElement_level]

/-- `ttsdkjson_addStringElement` preserves the container level. -/
lemma ttsdkjson_addStringElement_level (st : EncState) (name : Option (List Char))
    (v : Option (List Char)) (len : Int) :
    (ttsdkjson_addStringElement st name v len).2.ctx.containerLevel = st.ctx.containerLevel := by
  cases v with
  | none => exact ttsdkjson_addNullElement_level ..
  | some s =>
    simp only [ttsdkjson_addStringElement]
    split
    · exact ttsdkjson_beginElement_level ..
    · rw [addQuotedEscapedString_level, ttsdkjson_beginElement_level]

/-- `ttsdkjson_beginStringElement` preserves the container level. -/
lemma ttsdkjson_beginStringElement_level (st : EncState) (name : Option (List Char)) :
    (ttsdkjson_beginStringElement st name).2.ctx.containerLevel = st.ctx.containerLevel := by
  simp only [ttsdkjson_beginStringElement]
  split
  · exact ttsdkjson_beginElement_level ..
  · rw [addJSONData_level, ttsdkjson_beginElement_level]

/-- `ttsdkjson_addDataElement` preserves the container level. -/
lemma ttsdkjson_addDataElement_level (st : EncState) (name : Option (List Char)) (v : List Char) :
    (ttsdkjson_addDataElement st name v).2.ctx.containerLevel = st.ctx.containerLevel := by
  simp only [ttsdkjson_addDataElement, ttsdkjson_beginDataElement, ttsdkjson_endDataElement,
    ttsdkjson_endStringElement]
  split
  · exact ttsdkjson_beginStringElement_level ..
  · split
    · rw [ttsdkjson_appendDataElement_level, ttsdkjson_beginStringElement_level]
    · rw [addJSONData_level, ttsdkjson_appendDataElement_level, ttsdkjson_beginStringElement_level]

/-- `ttsdkjson_beginArray` either leaves the level unchanged (a failed
`beginElement`) or increments it by exactly one; it never checks a maximum. -/
lemma ttsdkjson_beginArray_level (st : EncState) (name : Option (List Char)) :
    (ttsdkjson_beginArray st name).2.ctx.containerLevel = st.ctx.containerLevel ∨
    (ttsdkjson_beginArray st name).2.ctx.containerLevel = st.ctx.containerLevel + 1 := by
  simp only [ttsdkjson_beginArray]
  split
  · split
    · exact Or.inl (ttsdkjson_beginElement_level ..)
    · right
      rw [addJSONData_level]
      show (ttsdkjson_beginElement st name).2.ctx.containerLevel + 1 = st.ctx.containerLevel + 1
      rw [ttsdkjson_beginElement_level]
  · split
    · exact Or.inl rfl
    · right
      rw [addJSONData_level]

/-- `ttsdkjson_beginObject`: same level behavior as `ttsdkjson_beginArray`. -/
lemma ttsdkjson_beginObject_level (st : EncState) (name : Option (List Char)) :
    (ttsdkjson_beginObject st name).2.ctx.containerLevel = st.ctx.containerLevel ∨
    (ttsdkjson_beginObject st name).2.ctx.containerLevel = st.ctx.containerLevel + 1 := by
  simp only [ttsdkjson_beginObject]
  split
  · split
    · exact Or.inl (ttsdkjson_beginElement_level ..)
    · right
      rw [addJSONData_level]
      show (ttsdkjson_beginElement st name).2.ctx.containerLevel + 1 = st.ctx.containerLevel + 1
      rw [ttsdkjson_beginElement_level]
  · split
    · exact Or.inl rfl
    · right
      rw [addJSONData_level]

/-- `endContainerIndent` leaves the context untouched. -/
lemma endContainerIndent_ctx (st : EncState) : (endContainerIndent st).2.ctx = st.ctx := by
  simp only [endContainerIndent]
  split
  · split
    · exact addJSONData_ctx ..
    · rw [emitIndent_ctx]
      exact addJSONData_ctx ..
  · rfl

/-- With a positive level, `ttsdkjson_endContainer` decrements the level by
exactly one (whether or not the emissions succeed). -/
lemma ttsdkjson_endContainer_level_pos (st : EncState) (h : 0 < st.ctx.containerLevel) :
    (ttsdkjson_endContainer st).2.ctx.containerLevel = st.ctx.containerLevel - 1 := by
  simp only [ttsdkjson_endContainer]
  rw [if_neg (by omega)]
  split
  · exact congrArg EncCtx.containerLevel (endContainerIndent_ctx ..)
  · rw [addJSONData_level]
    exact congrArg EncCtx.containerLevel (endContainerIndent_ctx ..)

/-- With a non-positive level, `ttsdkjson_endContainer` is an identity (used
internally; the claim-level statement is separate). -/
lemma ttsdkjson_endContainer_nonpos (st : EncState) (h : st.ctx.containerLevel ≤ 0) :
    ttsdkjson_endContainer st = (TTSDKJSON_OK, st) := by
  simp [ttsdkjson_endContainer, h]

/-- The `ttsdkjson_endEncode` loop never increases the level and keeps it
nonnegative. -/
lemma endEncodeLoop_level (f : Nat) : ∀ st : EncState,
    (endEncodeLoop f st).2.ctx.containerLevel ≤ st.ctx.containerLevel ∧
    (0 ≤ st.ctx.containerLevel → 0 ≤ (endEncodeLoop f st).2.ctx.containerLevel) := by
  induction f with
  | zero => intro st; exact ⟨le_refl _, fun h => h⟩
  | succ n ih =>
    intro st
    simp only [endEncodeLoop]
    split
    · rename_i hpos
      have hlev := ttsdkjson_endContainer_level_pos st hpos
      split
      · constructor <;> omega
      · have hih := ih (ttsdkjson_endContainer st).2
        constructor <;> omega
    · exact ⟨le_refl _, fun h => h⟩

/-- One encoder operation keeps the level nonnegative. -/
lemma encStep_level_nonneg (st : EncState) (op : EncOp) (h : 0 ≤ st.ctx.containerLevel) :
    0 ≤ (encStep st op).2.ctx.containerLevel := by
  cases op <;> simp only [encStep, ttsdkjson_addRawJSONData, ttsdkjson_appendStringElement,
    ttsdkjson_endStringElement, ttsdkjson_beginDataElement, ttsdkjson_endDataElement,
    ttsdkjson_endEncode]
  case beginArray name => rcases ttsdkjson_beginArray_level st name with h1 | h1 <;> omega
  case beginObject name => rcases ttsdkjson_beginObject_level st name with h1 | h1 <;> omega
  case endContainer =>
    by_cases hp : 0 < st.ctx.containerLevel
    · have := ttsdkjson_endContainer_level_pos st hp
      omega
    · rw [ttsdkjson_endContainer_nonpos st (by omega)]
      exact h
  case addBoolean name v => rw [ttsdkjson_addBooleanElement_level]; exact h
  case addInteger name v => rw [ttsdkjson_addIntegerElement_level]; exact h
  case addUInteger name v => rw [ttsdkjson_addUIntegerElement_level]; exact h
  case addFloating name v => rw [ttsdkjson_addFloatingPointElement_level]; exact h
  case addNull name => rw [ttsdkjson_addNullElement_level]; exact h
  case addString name v len => rw [ttsdkjson_addStringElement_level]; exact h
  case addData name v => rw [ttsdkjson_addDataElement_level]; exact h
  case addRaw d => rw [addJSONData_level]; exact h
  case beginString name => rw [ttsdkjson_beginStringElement_level]; exact h
  case appendString v => rw [addEscapedString_level]; exact h
  case endString => rw [addJSONData_level]; exact h
  case beginData name => rw [ttsdkjson_beginStringElement_level]; exact h
  case appendData v => rw [ttsdkjson_appendDataElement_level]; exact h
  case endData => rw [addJSONData_level]; exact h
  case endEncode => exact (endEncodeLoop_level _ st).2 h

/-- One encoder operation raises the level by at most the number of
container opens it performs (one for the two opens, zero otherwise). -/
lemma encStep_level_le (st : EncState) (op : EncOp) :
    (encStep st op).2.ctx.containerLevel ≤ st.ctx.containerLevel + encOpOpens op := by
  cases op <;> simp only [encStep, encOpOpens, ttsdkjson_addRawJSONData,
    ttsdkjson_appendStringElement, ttsdkjson_endStringElement, ttsdkjson_beginDataElement,
    ttsdkjson_endDataElement, ttsdkjson_endEncode]
  case beginArray name => rcases ttsdkjson_beginArray_level st name with h1 | h1 <;> omega
  case beginObject name => rcases ttsdkjson_beginObject_level st name with h1 | h1 <;> omega
  case endContainer =>
    by_cases hp : 0 < st.ctx.containerLevel
    · have := ttsdkjson_endContainer_level_pos st hp
      omega
    · rw [ttsdkjson_endContainer_nonpos st (by omega)]
      simp
  case addBoolean name v => rw [ttsdkjson_addBooleanElement_level]; omega
  case addInteger name v => rw [ttsdkjson_addIntegerElement_level]; omega
  case addUInteger name v => rw [ttsdkjson_addUIntegerElement_level]; omega
  case addFloating name v => rw [ttsdkjson_addFloatingPointElement_level]; omega
  case addNull name => rw [ttsdkjson_addNullElement_level]; omega
  case addString name v len => rw [ttsdkjson_addStringElement_level]; omega
  case addData name v => rw [ttsdkjson_addDataElement_level]; omega
  case addRaw d => rw [addJSONData_level]; omega
  case beginString name => rw [ttsdkjson_beginStringElement_level]; omega
  case appendString v => rw [addEscapedString_level]; omega
  case endString => rw [addJSONData_level]; omega
  case beginData name => rw [ttsdkjson_beginStringElement_level]; omega
  case appendData v => rw [ttsdkjson_appendDataElement_level]; omega
  case endData => rw [addJSONData_level]; omega
  case endEncode =>
    have := (endEncodeLoop_level st.ctx.containerLevel.toNat st).1
    omega

/-- Folding encoder operations from any nonnegative level keeps the level
nonnegative and bounded by the starting level plus the number of opens. -/
lemma encodeRunFrom_level (ops : List EncOp) : ∀ st : EncState, 0 ≤ st.ctx.containerLevel →
    0 ≤ (ops.foldl (fun s op => (encStep s op).2) st).ctx.containerLevel ∧
    (ops.foldl (fun s op => (encStep s op).2) st).ctx.containerLevel ≤
      st.ctx.containerLevel + countContainerOpens ops := by
  induction ops with
  | nil =>
    intro st h
    simp only [List.foldl_nil]
    exact ⟨h, by simp [countContainerOpens]⟩
  | cons op rest ih =>
    intro st h
    simp only [List.foldl_cons]
    have h1 := encStep_level_nonneg st op h
    have h2 := encStep_level_le st op
    have h3 := ih (encStep st op).2 h1
    have h4 : countContainerOpens (op :: rest) = encOpOpens op + countContainerOpens rest := by
      simp [countContainerOpens]
    refine ⟨h3.1, ?_⟩
    have h5 := h3.2
    omega

/-- C8 amended: for every sequence of encoder operations starting from
begin-encode, the context satisfies containerLevel ≥ 0 after every
operation, and the level is bounded by the number of container-open
operations performed — the open operations increment the level by exactly
one and never consult the static maximum, so no bound in terms of the
`isObject` vector width is enforced by the code. -/
theorem claim_C8_level_invariant (pretty : Bool) (sink : Nat → Int) (ops : List EncOp) :
    0 ≤ (encodeRun pretty sink ops).ctx.containerLevel ∧
    (encodeRun pretty sink ops).ctx.containerLevel ≤ countContainerOpens ops := by
  have h := encodeRunFrom_level ops (ttsdkjson_beginEncode pretty sink) (by exact le_refl 0)
  have hz : (ttsdkjson_beginEncode pretty sink).ctx.containerLevel = 0 := rfl
  unfold encodeRun
  constructor
  · exact h.1
  · have h2 := h.2
    rw [hz] at h2
    simpa using h2

set_option maxRecDepth 100000 in
/-- C8 counterexample: opening one container more than the modelled maximum
(129 opens against a width of 128) drives containerLevel beyond the
maximum — container open does not preserve the upper bound. -/
theorem claim_C8_depth_exceeds_maximum :
    (encodeRun false sinkOK
        (List.replicate (encodeMaxDepth + 1) (EncOp.beginArray none))).ctx.containerLevel =
      (encodeMaxDepth : Int) + 1 ∧
    ¬((encodeMaxDepth : Int) + 1 ≤ (encodeMaxDepth : Int)) := by
  constructor <;> decide
lemma decodeArrayLoop_close (nameLen strLen : Nat) (f : Nat) (evs : List JEvent)
    (after : List Char) :
    decodeArrayLoop cbOK nameLen strLen (f + 1) evs (']' :: after) =
      some ⟨TTSDKJSON_OK, after, evs ++ [JEvent.endContainer]⟩ := rfl

lemma decodeObjectLoop_close (nameLen strLen : Nat) (f : Nat) (evs : List JEvent)
    (after : List Char) :
    decodeObjectLoop cbOK nameLen strLen (f + 1) evs ('}' :: after) =
      some ⟨TTSDKJSON_OK, after, evs ++ [JEvent.endContainer]⟩ := rfl

lemma selfDelim_true (nameLen strLen : Nat) : SelfDelim nameLen strLen elemTrue := by
  constructor
  · exact ⟨'t', "rue".toList, rfl, by decide, by decide, by decide, by decide⟩
  · intro fuel rest name evs hfuel hsep
    obtain ⟨f, rfl⟩ : ∃ f, fuel = f + 1 := ⟨fuel - 1, by omega⟩
    obtain ⟨c, t, rfl, hc⟩ := hsep
    rcases hc with rfl | rfl | rfl | rfl <;> rfl

lemma selfDelim_null (nameLen strLen : Nat) : SelfDelim nameLen strLen elemNullSpec := by
  constructor
  · exact ⟨'n', "ull".toList, rfl, by decide, by decide, by decide, by decide⟩
  · intro fuel rest name evs hfuel hsep
    obtain ⟨f, rfl⟩ : ∃ f, fuel = f + 1 := ⟨fuel - 1, by omega⟩
    obtain ⟨c, t, rfl, hc⟩ := hsep
    rcases hc with rfl | rfl | rfl | rfl <;> rfl

lemma selfDelim_one (nameLen strLen : Nat) : SelfDelim nameLen strLen elemOne := by
  constructor
  · exact ⟨'1', [], rfl, by decide, by decide, by decide, by decide⟩
  · intro fuel rest name evs hfuel hsep
    obtain ⟨f, rfl⟩ : ∃ f, fuel = f + 1 := ⟨fuel - 1, by omega⟩
    obtain ⟨c, t, rfl, hc⟩ := hsep
    rcases hc with rfl | rfl | rfl | rfl <;> rfl
lemma decodeArrayLoop_step (nameLen strLen : Nat) (e : ElemSpec)
    (hsd : SelfDelim nameLen strLen e) (f : Nat) (evs : List JEvent) (rest : List Char)
    (hf : e.text.length + 1 ≤ f) (hr : SepStart rest) :
    decodeArrayLoop cbOK nameLen strLen (f + 1) evs (e.text ++ rest) =
      (match rest.dropWhile isSpaceC with
       | [] => some ⟨TTSDKJSON_ERROR_INCOMPLETE, [], evs ++ e.events none⟩
       | d :: rest2 =>
         if d = ',' then decodeArrayLoop cbOK nameLen strLen f (evs ++ e.events none) rest2
         else decodeArrayLoop cbOK nameLen strLen f (evs ++ e.events none) (d :: rest2)) := by
  obtain ⟨c0, t0, he0, hs0, hc0, hb0, hr0⟩ := hsd.1
  have hdec := hsd.2 f rest none evs hf hr
  rw [he0] at hdec ⊢
  simp only [List.cons_append] at hdec ⊢
  have hdrop : (c0 :: (t0 ++ rest)).dropWhile isSpaceC = c0 :: (t0 ++ rest) := by
    rw [List.dropWhile_cons, if_neg (by simp [hs0])]
  simp only [decodeArrayLoop, hdrop]
  rw [if_neg hb0]
  rw [hdec]
  cases hd : List.dropWhile isSpaceC rest with
  | nil => simp [hd]
  | cons d rest2 => simp [hd]
lemma decodeArrayLoop_step_close (nameLen strLen : Nat) (e : ElemSpec)
    (hsd : SelfDelim nameLen strLen e) (f : Nat) (evs : List JEvent) (after : List Char)
    (hf : e.text.length + 1 ≤ f + 1) :
    decodeArrayLoop cbOK nameLen strLen (f + 1 + 1) evs (e.text ++ ']' :: after) =
      some ⟨TTSDKJSON_OK, after, evs ++ e.events none ++ [JEvent.endContainer]⟩ :=
  decodeArrayLoop_step nameLen strLen e hsd (f + 1) evs (']' :: after) hf
    ⟨']', after, rfl, Or.inr (Or.inl rfl)⟩

lemma decodeArrayLoop_step_comma (nameLen strLen : Nat) (e : ElemSpec)
    (hsd : SelfDelim nameLen strLen e) (f : Nat) (evs : List JEvent) (more : List Char)
    (hf : e.text.length + 1 ≤ f) :
    decodeArrayLoop cbOK nameLen strLen (f + 1) evs (e.text ++ ',' :: more) =
      decodeArrayLoop cbOK nameLen strLen f (evs ++ e.events none) more :=
  decodeArrayLoop_step nameLen strLen e hsd f evs (',' :: more) hf
    ⟨',', more, rfl, Or.inl rfl⟩

lemma decodeArrayLoop_step_space (nameLen strLen : Nat) (e : ElemSpec)
    (hsd : SelfDelim nameLen strLen e) (f : Nat) (evs : List JEvent) (c2 : Char)
    (more : List Char) (hs2 : isSpaceC c2 = false) (hc2 : c2 ≠ ',')
    (hf : e.text.length + 1 ≤ f) :
    decodeArrayLoop cbOK nameLen strLen (f + 1) evs (e.text ++ ' ' :: c2 :: more) =
      decodeArrayLoop cbOK nameLen strLen f (evs ++ e.events none) (c2 :: more) := by
  have h := decodeArrayLoop_step nameLen strLen e hsd f evs (' ' :: c2 :: more) hf
    ⟨' ', c2 :: more, rfl, Or.inr (Or.inr (Or.inr rfl))⟩
  rw [h]
  have hdrop : (' ' :: c2 :: more).dropWhile isSpaceC = c2 :: more := by
    rw [List.dropWhile_cons, if_pos (by decide), List.dropWhile_cons, if_neg (by simp [hs2])]
  simp only [hdrop]
  rw [if_neg hc2]
lemma decodeArrayLoop_chain (nameLen strLen : Nat) (sep : Char)
    (hsep : sep = ',' ∨ sep = ' ') (trail : Bool) :
    ∀ es : List ElemSpec, (∀ e ∈ es, SelfDelim nameLen strLen e) → (trail = true → es ≠ []) →
    ∀ (fuel : Nat) (evs : List JEvent) (after : List Char),
      sumLen es + es.length + 2 ≤ fuel →
      decodeArrayLoop cbOK nameLen strLen fuel evs
          (joinSep [sep] (es.map ElemSpec.text) ++ (cond trail [','] [] ++ ']' :: after)) =
        some ⟨TTSDKJSON_OK, after,
              evs ++ (es.map (fun e => e.events none)).flatten ++ [JEvent.endContainer]⟩ := by
  intro es
  induction es with
  | nil =>
    intro hes hne fuel evs after hfuel
    obtain ⟨f, rfl⟩ : ∃ f, fuel = f + 1 := ⟨fuel - 1, by omega⟩
    have ht : trail = false := by
      cases trail
      · rfl
      · exact absurd rfl (hne rfl)
    subst ht
    exact (decodeArrayLoop_close nameLen strLen f evs after).trans (by simp)
  | cons e tl ih =>
    intro hes hne fuel evs after hfuel
    have hsd := hes e (by simp)
    have hsum : sumLen (e :: tl) = e.text.length + sumLen tl := by simp [sumLen]
    cases tl with
    | nil =>
      cases trail
      · obtain ⟨f2, rfl⟩ : ∃ f2, fuel = f2 + 1 + 1 := ⟨fuel - 2, by omega⟩
        have h := decodeArrayLoop_step_close nameLen strLen e hsd f2 evs after
          (by simp [sumLen] at hfuel; omega)
        exact h.trans (by simp)
      · obtain ⟨f2, rfl⟩ : ∃ f2, fuel = f2 + 1 + 1 := ⟨fuel - 2, by omega⟩
        have h1 := decodeArrayLoop_step_comma nameLen strLen e hsd (f2 + 1) evs (']' :: after)
          (by simp [sumLen] at hfuel; omega)
        have h2 := decodeArrayLoop_close nameLen strLen f2 (evs ++ e.events none) after
        exact (h1.trans h2).trans (by simp)
    | cons e2 tl2 =>
      have hbuf : joinSep [sep] (List.map ElemSpec.text (e :: e2 :: tl2)) ++
            (cond trail [','] [] ++ ']' :: after) =
          e.text ++ (sep :: (joinSep [sep] (List.map ElemSpec.text (e2 :: tl2)) ++
            (cond trail [','] [] ++ ']' :: after))) := by
        simp [joinSep, List.append_assoc]
      rw [hbuf]
      obtain ⟨f2, rfl⟩ : ∃ f2, fuel = f2 + 1 := ⟨fuel - 1, by omega⟩
      have hsum2 : sumLen (e2 :: tl2) = e2.text.length + sumLen tl2 := by simp [sumLen]
      have hlen : e.text.length + 1 ≤ f2 := by simp [sumLen] at hfuel; omega
      have hih := ih (fun x hx => hes x (by simp [hx])) (fun _ => List.cons_ne_nil _ _)
        f2 (evs ++ e.events none) after (by simp [sumLen] at hfuel ⊢; omega)
      rcases hsep with rfl | rfl
      · have h1 := decodeArrayLoop_step_comma nameLen strLen e hsd f2 evs
          (joinSep [','] (List.map ElemSpec.text (e2 :: tl2)) ++ (cond trail [','] [] ++ ']' :: after))
          hlen
        rw [h1, hih]
        simp
      · obtain ⟨c2, t2, he2, hs2, hc2, hb2, hr2⟩ := (hes e2 (by simp)).1
        have hX : ∃ more, joinSep [' '] (List.map ElemSpec.text (e2 :: tl2)) ++
            (cond trail [','] [] ++ ']' :: after) = c2 :: more := by
          cases tl2 with
          | nil => exact ⟨t2 ++ (cond trail [','] [] ++ ']' :: after), by simp [joinSep, he2]⟩
          | cons e3 tl3 =>
            refine ⟨t2 ++ (' ' :: joinSep [' '] (List.map ElemSpec.text (e3 :: tl3))) ++
              (cond trail [','] [] ++ ']' :: after), ?_⟩
            simp [joinSep, he2, List.append_assoc]
        obtain ⟨more, hmore⟩ := hX
        rw [hmore]
        have h1 := decodeArrayLoop_step_space nameLen strLen e hsd f2 evs c2 more hs2 hc2 hlen
        rw [h1, ← hmore, hih]
        simp
lemma scanString_clean (k : List Char) :
    '"' ∉ k → '\\' ∉ k → ∀ rest : List Char, scanString (k ++ '"' :: rest) = some (k, true, rest) := by
  induction k with
  | nil =>
    intro _ _ rest
    simp only [List.nil_append]
    rw [scanString.eq_def]
    simp
  | cons c t ih =>
    intro h1 h2 rest
    have hc1 : ¬(c = '"') := fun h => h1 (by simp [h])
    have hc2 : ¬(c = '\\') := fun h => h2 (by simp [h])
    have ht1 : '"' ∉ t := fun h => h1 (by simp [h])
    have ht2 : '\\' ∉ t := fun h => h2 (by simp [h])
    simp only [List.cons_append]
    rw [scanString.eq_def]
    simp only []
    rw [if_neg hc1, if_neg hc2, ih ht1 ht2 rest]
    rfl

lemma decodeString_clean_key (k : List Char) (nameLen : Nat)
    (hq : '"' ∉ k) (hb : '\\' ∉ k) (hlen : k.length < nameLen) (rest : List Char) :
    decodeString ('"' :: (k ++ '"' :: rest)) nameLen =
      ⟨TTSDKJSON_OK, rest, k ++ ['\x00']⟩ := by
  simp only [decodeString, if_pos]
  rw [scanString_clean k hq hb rest]
  have hnot : ¬(k.length ≥ nameLen) := by omega
  simp [hnot]

lemma decodeObjectLoop_step (nameLen strLen : Nat) (p : PairSpec)
    (hk : GoodKey nameLen p.key) (hsd : SelfDelim nameLen strLen p.elem)
    (f : Nat) (evs : List JEvent) (rest : List Char)
    (hf : p.elem.text.length + 1 ≤ f) (hr : SepStart rest) :
    decodeObjectLoop cbOK nameLen strLen (f + 1) evs (pairText p ++ rest) =
      (match rest.dropWhile isSpaceC with
       | [] => some ⟨TTSDKJSON_ERROR_INCOMPLETE, [], evs ++ p.elem.events (some p.key)⟩
       | d :: rest2 =>
         if d = ',' then
           decodeObjectLoop cbOK nameLen strLen f (evs ++ p.elem.events (some p.key)) rest2
         else
           decodeObjectLoop cbOK nameLen strLen f (evs ++ p.elem.events (some p.key))
             (d :: rest2)) := by
  obtain ⟨hklen, hkq, hkb⟩ := hk
  obtain ⟨c0, t0, he0, hs0, hc0, hb0, hr0⟩ := hsd.1
  have hdec := hsd.2 f rest (some p.key) evs hf hr
  have hks := decodeString_clean_key p.key nameLen hkq hkb hklen (':' :: (p.elem.text ++ rest))
  have hbuf : pairText p ++ rest = '"' :: (p.key ++ '"' :: ':' :: (p.elem.text ++ rest)) := by
    simp [pairText, List.append_assoc]
  rw [hbuf]
  have hdropq : ('"' :: (p.key ++ '"' :: ':' :: (p.elem.text ++ rest))).dropWhile isSpaceC =
      '"' :: (p.key ++ '"' :: ':' :: (p.elem.text ++ rest)) := by
    rw [List.dropWhile_cons, if_neg (by decide)]
  simp only [decodeObjectLoop, hdropq]
  rw [if_neg (by decide : ¬('"' = '}'))]
  rw [hks]
  have hdl : (p.key ++ ['\x00']).dropLast = p.key := by simp
  simp only [hdl]
  have hdropc : (':' :: (p.elem.text ++ rest)).dropWhile isSpaceC =
      ':' :: (p.elem.text ++ rest) := by
    rw [List.dropWhile_cons, if_neg (by decide)]
  simp only [hdropc]
  rw [if_neg (by simp : ¬(':' ≠ ':'))]
  have hdrope : (p.elem.text ++ rest).dropWhile isSpaceC = p.elem.text ++ rest := by
    rw [he0]
    simp only [List.cons_append]
    rw [List.dropWhile_cons, if_neg (by simp [hs0])]
  simp only [hdrope]
  rw [hdec]
  cases hd : List.dropWhile isSpaceC rest with
  | nil => simp [hd]
  | cons d rest2 => simp [hd]
lemma decodeObjectLoop_step_close (nameLen strLen : Nat) (p : PairSpec)
    (hk : GoodKey nameLen p.key) (hsd : SelfDelim nameLen strLen p.elem)
    (f : Nat) (evs : List JEvent) (after : List Char)
    (hf : p.elem.text.length + 1 ≤ f + 1) :
    decodeObjectLoop cbOK nameLen strLen (f + 1 + 1) evs (pairText p ++ '}' :: after) =
      some ⟨TTSDKJSON_OK, after,
            evs ++ p.elem.events (some p.key) ++ [JEvent.endContainer]⟩ :=
  decodeObjectLoop_step nameLen strLen p hk hsd (f + 1) evs ('}' :: after) hf
    ⟨'}', after, rfl, Or.inr (Or.inr (Or.inl rfl))⟩

lemma decodeObjectLoop_step_comma (nameLen strLen : Nat) (p : PairSpec)
    (hk : GoodKey nameLen p.key) (hsd : SelfDelim nameLen strLen p.elem)
    (f : Nat) (evs : List JEvent) (more : List Char)
    (hf : p.elem.text.length + 1 ≤ f) :
    decodeObjectLoop cbOK nameLen strLen (f + 1) evs (pairText p ++ ',' :: more) =
      decodeObjectLoop cbOK nameLen strLen f (evs ++ p.elem.events (some p.key)) more :=
  decodeObjectLoop_step nameLen strLen p hk hsd f evs (',' :: more) hf
    ⟨',', more, rfl, Or.inl rfl⟩

lemma decodeObjectLoop_step_space (nameLen strLen : Nat) (p : PairSpec)
    (hk : GoodKey nameLen p.key) (hsd : SelfDelim nameLen strLen p.elem)
    (f : Nat) (evs : List JEvent) (c2 : Char) (more : List Char)
    (hs2 : isSpaceC c2 = false) (hc2 : c2 ≠ ',')
    (hf : p.elem.text.length + 1 ≤ f) :
    decodeObjectLoop cbOK nameLen strLen (f + 1) evs (pairText p ++ ' ' :: c2 :: more) =
      decodeObjectLoop cbOK nameLen strLen f (evs ++ p.elem.events (some p.key)) (c2 :: more) := by
  have h := decodeObjectLoop_step nameLen strLen p hk hsd f evs (' ' :: c2 :: more) hf
    ⟨' ', c2 :: more, rfl, Or.inr (Or.inr (Or.inr rfl))⟩
  rw [h]
  have hdrop : (' ' :: c2 :: more).dropWhile isSpaceC = c2 :: more := by
    rw [List.dropWhile_cons, if_pos (by decide), List.dropWhile_cons, if_neg (by simp [hs2])]
  simp only [hdrop]
  rw [if_neg hc2]

lemma decodeObjectLoop_chain (nameLen strLen : Nat) (sep : Char)
    (hsep : sep = ',' ∨ sep = ' ') (trail : Bool) :
    ∀ ps : List PairSpec,
      (∀ p ∈ ps, GoodKey nameLen p.key ∧ SelfDelim nameLen strLen p.elem) →
      (trail = true → ps ≠ []) →
    ∀ (fuel : Nat) (evs : List JEvent) (after : List Char),
      sumPairLen ps + ps.length + 2 ≤ fuel →
      decodeObjectLoop cbOK nameLen strLen fuel evs
          (joinSep [sep] (ps.map pairText) ++ (cond trail [','] [] ++ '}' :: after)) =
        some ⟨TTSDKJSON_OK, after,
              evs ++ (ps.map (fun p => p.elem.events (some p.key))).flatten ++
                [JEvent.endContainer]⟩ := by
  intro ps
  induction ps with
  | nil =>
    intro hps hne fuel evs after hfuel
    obtain ⟨f, rfl⟩ : ∃ f, fuel = f + 1 := ⟨fuel - 1, by omega⟩
    have ht : trail = false := by
      cases trail
      · rfl
      · exact absurd rfl (hne rfl)
    subst ht
    exact (decodeObjectLoop_close nameLen strLen f evs after).trans (by simp)
  | cons p tl ih =>
    intro hps hne fuel evs after hfuel
    obtain ⟨hk, hsd⟩ := hps p (by simp)
    have hplen : p.elem.text.length + 3 ≤ (pairText p).length := by
      simp only [pairText, List.length_cons, List.length_append]
      omega
    cases tl with
    | nil =>
      cases trail
      · obtain ⟨f2, rfl⟩ : ∃ f2, fuel = f2 + 1 + 1 := ⟨fuel - 2, by omega⟩
        have h := decodeObjectLoop_step_close nameLen strLen p hk hsd f2 evs after
          (by simp [sumPairLen] at hfuel; omega)
        exact h.trans (by simp)
      · obtain ⟨f2, rfl⟩ : ∃ f2, fuel = f2 + 1 + 1 := ⟨fuel - 2, by omega⟩
        have h1 := decodeObjectLoop_step_comma nameLen strLen p hk hsd (f2 + 1) evs ('}' :: after)
          (by simp [sumPairLen] at hfuel; omega)
        have h2 := decodeObjectLoop_close nameLen strLen f2 (evs ++ p.elem.events (some p.key)) after
        exact (h1.trans h2).trans (by simp)
    | cons p2 tl2 =>
      have hbuf : joinSep [sep] (List.map pairText (p :: p2 :: tl2)) ++
            (cond trail [','] [] ++ '}' :: after) =
          pairText p ++ (sep :: (joinSep [sep] (List.map pairText (p2 :: tl2)) ++
            (cond trail [','] [] ++ '}' :: after))) := by
        simp [joinSep, List.append_assoc]
      rw [hbuf]
      obtain ⟨f2, rfl⟩ : ∃ f2, fuel = f2 + 1 := ⟨fuel - 1, by omega⟩
      have hlen : p.elem.text.length + 1 ≤ f2 := by
        simp [sumPairLen] at hfuel
        omega
      have hih := ih (fun x hx => hps x (by simp [hx])) (fun _ => List.cons_ne_nil _ _)
        f2 (evs ++ p.elem.events (some p.key)) after (by simp [sumPairLen] at hfuel ⊢; omega)
      rcases hsep with rfl | rfl
      · have h1 := decodeObjectLoop_step_comma nameLen strLen p hk hsd f2 evs
          (joinSep [','] (List.map pairText (p2 :: tl2)) ++ (cond trail [','] [] ++ '}' :: after))
          hlen
        rw [h1, hih]
        simp
      · have hX : ∃ more, joinSep [' '] (List.map pairText (p2 :: tl2)) ++
            (cond trail [','] [] ++ '}' :: after) = '"' :: more := by
          cases tl2 with
          | nil =>
            refine ⟨(p2.key ++ '"' :: ':' :: p2.elem.text) ++ (cond trail [','] [] ++ '}' :: after), ?_⟩
            simp [joinSep, pairText]
          | cons p3 tl3 =>
            refine ⟨(p2.key ++ '"' :: ':' :: p2.elem.text) ++
              (' ' :: joinSep [' '] (List.map pairText (p3 :: tl3))) ++
              (cond trail [','] [] ++ '}' :: after), ?_⟩
            simp [joinSep, pairText, List.append_assoc]
        obtain ⟨more, hmore⟩ := hX
        rw [hmore]
        have h1 := decodeObjectLoop_step_space nameLen strLen p hk hsd f2 evs '"' more
          (by decide) (by decide) hlen
        rw [h1, ← hmore, hih]
        simp
lemma decodeElement_openBracket (nameLen strLen : Nat) (f : Nat) (name : Option (List Char))
    (evs : List JEvent) (body : List Char) :
    decodeElement cbOK nameLen strLen (f + 1) name evs ('[' :: body) =
      decodeArrayLoop cbOK nameLen strLen f (evs ++ [JEvent.beginArray name]) body := rfl

lemma decodeElement_openBrace (nameLen strLen : Nat) (f : Nat) (name : Option (List Char))
    (evs : List JEvent) (body : List Char) :
    decodeElement cbOK nameLen strLen (f + 1) name evs ('{' :: body) =
      decodeObjectLoop cbOK nameLen strLen f (evs ++ [JEvent.beginObject name]) body := rfl

/-- C7: for every array built from self-delimiting elements and every object
built from clean keys and self-delimiting elements, the decoder accepts the
strictly comma-separated form, the whitespace-only-separated form, and the
form with a trailing comma immediately before the closing bracket or brace,
returning OK and producing the identical callback sequence (`arrayEvents` /
`objectEvents`) in all three cases, with `onEndData` invoked. -/
theorem claim_C7_separator_tolerance (sbl fuel : Nat) (es : List ElemSpec) (ps : List PairSpec)
    (hes : ∀ e ∈ es, SelfDelim (sbl / 4) (sbl - sbl / 4) e)
    (hps : ∀ p ∈ ps, GoodKey (sbl / 4) p.key ∧ SelfDelim (sbl / 4) (sbl - sbl / 4) p.elem)
    (hne : es ≠ []) (hpne : ps ≠ [])
    (hfuel : sumLen es + es.length + sumPairLen ps + ps.length + 4 ≤ fuel) :
    (ttsdkjson_decode fuel (arrayDocSep ',' es) sbl cbOK TTSDKJSON_OK false =
        some ⟨TTSDKJSON_OK, [], arrayEvents es, true, none⟩) ∧
    (ttsdkjson_decode fuel (arrayDocSep ' ' es) sbl cbOK TTSDKJSON_OK false =
        some ⟨TTSDKJSON_OK, [], arrayEvents es, true, none⟩) ∧
    (ttsdkjson_decode fuel (arrayDocTrail es) sbl cbOK TTSDKJSON_OK false =
        some ⟨TTSDKJSON_OK, [], arrayEvents es, true, none⟩) ∧
    (ttsdkjson_decode fuel (objectDocSep ',' ps) sbl cbOK TTSDKJSON_OK false =
        some ⟨TTSDKJSON_OK, [], objectEvents ps, true, none⟩) ∧
    (ttsdkjson_decode fuel (objectDocSep ' ' ps) sbl cbOK TTSDKJSON_OK false =
        some ⟨TTSDKJSON_OK, [], objectEvents ps, true, none⟩) ∧
    (ttsdkjson_decode fuel (objectDocTrail ps) sbl cbOK TTSDKJSON_OK false =
        some ⟨TTSDKJSON_OK, [], objectEvents ps, true, none⟩) := by
  have wrap : ∀ (doc : List Char) (events : List JEvent),
      decodeElement cbOK (sbl / 4) (sbl - sbl / 4) fuel none [] doc =
        some ⟨TTSDKJSON_OK, [], events⟩ →
      ttsdkjson_decode fuel doc sbl cbOK TTSDKJSON_OK false =
        some ⟨TTSDKJSON_OK, [], events, true, none⟩ := by
    intro doc events h
    simp [ttsdkjson_decode, h]
  refine ⟨?_, ?_, ?_, ?_, ?_, ?_⟩
  · obtain ⟨f, rfl⟩ : ∃ f, fuel = f + 1 := ⟨fuel - 1, by omega⟩
    apply wrap
    rw [show arrayDocSep ',' es =
        '[' :: (joinSep [','] (es.map ElemSpec.text) ++ (cond false [','] [] ++ ']' :: []))
      from rfl]
    rw [decodeElement_openBracket]
    exact (decodeArrayLoop_chain (sbl / 4) (sbl - sbl / 4) ',' (Or.inl rfl) false es hes
      (by simp) f [JEvent.beginArray none] [] (by omega)).trans (by simp [arrayEvents])
  · obtain ⟨f, rfl⟩ : ∃ f, fuel = f + 1 := ⟨fuel - 1, by omega⟩
    apply wrap
    rw [show arrayDocSep ' ' es =
        '[' :: (joinSep [' '] (es.map ElemSpec.text) ++ (cond false [','] [] ++ ']' :: []))
      from rfl]
    rw [decodeElement_openBracket]
    exact (decodeArrayLoop_chain (sbl / 4) (sbl - sbl / 4) ' ' (Or.inr rfl) false es hes
      (by simp) f [JEvent.beginArray none] [] (by omega)).trans (by simp [arrayEvents])
  · obtain ⟨f, rfl⟩ : ∃ f, fuel = f + 1 := ⟨fuel - 1, by omega⟩
    apply wrap
    rw [show arrayDocTrail es =
        '[' :: (joinSep [','] (es.map ElemSpec.text) ++ (cond true [','] [] ++ ']' :: []))
      from rfl]
    rw [decodeElement_openBracket]
    exact (decodeArrayLoop_chain (sbl / 4) (sbl - sbl / 4) ',' (Or.inl rfl) true es hes
      (fun _ => hne) f [JEvent.beginArray none] [] (by omega)).trans (by simp [arrayEvents])
  · obtain ⟨f, rfl⟩ : ∃ f, fuel = f + 1 := ⟨fuel - 1, by omega⟩
    apply wrap
    rw [show objectDocSep ',' ps =
        '{' :: (joinSep [','] (ps.map pairText) ++ (cond false [','] [] ++ '}' :: []))
      from rfl]
    rw [decodeElement_openBrace]
    exact (decodeObjectLoop_chain (sbl / 4) (sbl - sbl / 4) ',' (Or.inl rfl) false ps hps
      (by simp) f [JEvent.beginObject none] [] (by omega)).trans (by simp [objectEvents])
  · obtain ⟨f, rfl⟩ : ∃ f, fuel = f + 1 := ⟨fuel - 1, by omega⟩
    apply wrap
    rw [show objectDocSep ' ' ps =
        '{' :: (joinSep [' '] (ps.map pairText) ++ (cond false [','] [] ++ '}' :: []))
      from rfl]
    rw [decodeElement_openBrace]
    exact (decodeObjectLoop_chain (sbl / 4) (sbl - sbl / 4) ' ' (Or.inr rfl) false ps hps
      (by simp) f [JEvent.beginObject none] [] (by omega)).trans (by simp [objectEvents])
  · obtain ⟨f, rfl⟩ : ∃ f, fuel = f + 1 := ⟨fuel - 1, by omega⟩
    apply wrap
    rw [show objectDocTrail ps =
        '{' :: (joinSep [','] (ps.map pairText) ++ (cond true [','] [] ++ '}' :: []))
      from rfl]
    rw [decodeElement_openBrace]
    exact (decodeObjectLoop_chain (sbl / 4) (sbl - sbl / 4) ',' (Or.inl rfl) true ps hps
      (fun _ => hpne) f [JEvent.beginObject none] [] (by omega)).trans (by simp [objectEvents])

/-- Witness for `claim_C7_separator_tolerance`: the arrays `[true,1]`,
`[true 1]`, `[true,1,]` and the objects with the single pair `"a":null`. -/
theorem claim_C7_separator_tolerance_witness :
    (ttsdkjson_decode 64 (arrayDocSep ',' [elemTrue, elemOne]) 64 cbOK TTSDKJSON_OK false =
        some ⟨TTSDKJSON_OK, [], arrayEvents [elemTrue, elemOne], true, none⟩) ∧
    (ttsdkjson_decode 64 (arrayDocSep ' ' [elemTrue, elemOne]) 64 cbOK TTSDKJSON_OK false =
        some ⟨TTSDKJSON_OK, [], arrayEvents [elemTrue, elemOne], true, none⟩) ∧
    (ttsdkjson_decode 64 (arrayDocTrail [elemTrue, elemOne]) 64 cbOK TTSDKJSON_OK false =
        some ⟨TTSDKJSON_OK, [], arrayEvents [elemTrue, elemOne], true, none⟩) ∧
    (ttsdkjson_decode 64 (objectDocSep ',' [pairA]) 64 cbOK TTSDKJSON_OK false =
        some ⟨TTSDKJSON_OK, [], objectEvents [pairA], true, none⟩) ∧
    (ttsdkjson_decode 64 (objectDocSep ' ' [pairA]) 64 cbOK TTSDKJSON_OK false =
        some ⟨TTSDKJSON_OK, [], objectEvents [pairA], true, none⟩) ∧
    (ttsdkjson_decode 64 (objectDocTrail [pairA]) 64 cbOK TTSDKJSON_OK false =
        some ⟨TTSDKJSON_OK, [], objectEvents [pairA], true, none⟩) :=
  claim_C7_separator_tolerance 64 64 [elemTrue, elemOne] [pairA]
    (by
      intro e he
      simp only [List.mem_cons, List.not_mem_nil, or_false] at he
      rcases he with rfl | rfl
      · exact selfDelim_true _ _
      · exact selfDelim_one _ _)
    (by
      intro p hp
      simp only [List.mem_cons, List.not_mem_nil, or_false] at hp
      subst hp
      exact ⟨⟨by decide, by decide, by decide⟩, selfDelim_null _ _⟩)
    (List.cons_ne_nil _ _) (List.cons_ne_nil _ _) (by decide)
